import Mathlib

/-! # Addon lifecycle manager (`core/cb.addons/main.js`)

A shallow embedding of the addon manager: the descriptor validator
(`validPackage`), the registry scan (`loadAddonsInfos`), the install and
uninstall pipelines and the defaults synchroniser, over an explicit model of
the file tree, the event log and the calls made to the external
collaborators (git clone, hooks, r.js, npm, the host loader).

Promises are modelled by their settled outcome: an action maps a world to
`Except JsError α` (resolved / rejected) together with the world it leaves
behind.  A handler attached with `.then(f)` runs only when the previous
promise resolved, and an exception thrown inside a handler rejects the chain.
-/

namespace Addons

/-! ## JavaScript values -/

/-- Values that `JSON.parse` can produce, plus `undefined` (the result of
reading an absent property). -/
inductive JsVal where
  | undefined
  | null
  | bool (b : Bool)
  | num (q : Rat)
  | str (s : String)
  | arr (items : List JsVal)
  | obj (fields : List (String × JsVal))

/-- Errors raised by the module, by the runtime or by a collaborator. -/
inductive JsError where
  /-- Result of `new Error(message)`. -/
  | error (message : String)
  /-- Runtime `TypeError`. -/
  | typeError (message : String)
  /-- Runtime `SyntaxError` (raised by `JSON.parse`). -/
  | syntaxError (message : String)
  /-- Failure of a filesystem call (`ENOENT`, `EEXIST`, `ENOTDIR`, ...). -/
  | system (code : String) (path : List String)
  /-- Failure reported by an external collaborator. -/
  | external (message : String)
  deriving DecidableEq, Repr

/-- JavaScript truthiness (`ToBoolean`). -/
def truthy : JsVal → Bool
  | .undefined => false
  | .null => false
  | .bool b => b
  | .num q => decide (q ≠ 0)
  | .str s => decide (s ≠ "")
  | .arr _ => true
  | .obj _ => true

/-- First binding of `key` in a field list. -/
def lookupKey : List (String × JsVal) → String → Option JsVal
  | [], _ => none
  | (k, v) :: rest, key => if k = key then some v else lookupKey rest key

/-- Property read `v.key` for the keys this module reads (`name`, `version`,
`main`, `client`): a `TypeError` on `undefined` and `null`, the own field of
an object, `undefined` otherwise. -/
def getProp (v : JsVal) (key : String) : Except JsError JsVal :=
  match v with
  | .undefined => .error (.typeError ("Cannot read property " ++ key ++ " of undefined"))
  | .null => .error (.typeError ("Cannot read property " ++ key ++ " of null"))
  | .obj fields => .ok ((lookupKey fields key).getD .undefined)
  | _ => .ok .undefined

/-- Operand `!e`. -/
def jsNot (a : Except JsError JsVal) : Except JsError Bool :=
  match a with
  | .error e => .error e
  | .ok v => .ok (!truthy v)

/-- Short-circuit `a || b` on booleans: `b` is not evaluated (so cannot
raise) when `a` is true. -/
def jsOr (a b : Except JsError Bool) : Except JsError Bool :=
  match a with
  | .error e => .error e
  | .ok true => .ok true
  | .ok false => b

/-- Short-circuit `a && b` on booleans: `b` is not evaluated when `a` is
false. -/
def jsAnd (a b : Except JsError Bool) : Except JsError Bool :=
  match a with
  | .error e => .error e
  | .ok false => .ok false
  | .ok true => b

/-- Source lines 28-31:
`!(!addon.name || !addon.version || (!addon.main && !addon.client && !addon.client.main))`. -/
def validPackage (addon : JsVal) : Except JsError Bool :=
  match
    jsOr (jsNot (getProp addon "name"))
      (jsOr (jsNot (getProp addon "version"))
        (jsAnd (jsNot (getProp addon "main"))
          (jsAnd (jsNot (getProp addon "client"))
            (jsNot ((getProp addon "client").bind (fun c => getProp c "main")))))) with
  | .error e => .error e
  | .ok b => .ok (!b)

/-- Assignment `o[key] = v` on a field list: replaces the binding of `key`
or appends a new one. -/
def setKey : List (String × JsVal) → String → JsVal → List (String × JsVal)
  | [], key, v => [(key, v)]
  | (k, old) :: rest, key, v =>
    if k = key then (k, v) :: rest else (k, old) :: setKey rest key v

/-- Assignment `target.key = v`; a silent no-op on a primitive. -/
def setProp (target : JsVal) (key : String) (v : JsVal) : JsVal :=
  match target with
  | .obj fields => .obj (setKey fields key v)
  | other => other

/-! ## Paths and the file tree -/

/-- An absolute, normalised path, as its list of components. -/
abbrev Path := List String

/-- Splits a character list at every `'/'`. -/
def splitSlash : List Char → List (List Char)
  | [] => [[]]
  | c :: cs =>
    if c = '/' then [] :: splitSlash cs
    else
      match splitSlash cs with
      | [] => [[c]]
      | h :: t => (c :: h) :: t

/-- Pushes path segments onto a normalised absolute path the way
`path.normalize` does: empty segments and `.` are dropped, `..` removes the
last component (and is dropped at the root). -/
def normalizeOnto : Path → List String → Path
  | acc, [] => acc
  | acc, c :: cs =>
    if c = "" ∨ c = "." then normalizeOnto acc cs
    else if c = ".." then normalizeOnto acc.dropLast cs
    else normalizeOnto (acc ++ [c]) cs

/-- Result of `path.resolve(base + '/' + s)` for a normalised absolute `base`:
the components of the normalised path, without any trailing slash. -/
def pathResolveStr (base : Path) (s : String) : Path :=
  normalizeOnto base ((splitSlash s.data).map String.mk)

/-- Whether the text ends with `'/'`. -/
def endsWithSlash : List Char → Bool
  | [] => false
  | [c] => c = '/'
  | _ :: c :: cs => endsWithSlash (c :: cs)

/-- A path text as `path.join` returns it: its normalised components, and
whether the text ends with a slash.  A text that ends with a slash designates
a directory only: on a plain file every filesystem call fails with
`ENOTDIR`. -/
structure Joined where
  path : Path
  slash : Bool
  deriving DecidableEq, Repr

/-- Result of `path.join(base, s)` for a normalised absolute `base`:
`path.normalize` keeps the trailing slash of the joined text, unless the
result is the root. -/
def pathJoinStr (base : Path) (s : String) : Joined :=
  { path := pathResolveStr base s
    slash := endsWithSlash s.data && !(pathResolveStr base s).isEmpty }

/-- Call `path.join(base, seg)`: raises a `TypeError` unless `seg` is a
string. -/
def pathJoin (base : Path) (seg : JsVal) : Except JsError Joined :=
  match seg with
  | .str s => .ok (pathJoinStr base s)
  | _ => .error (.typeError "Arguments to path.join must be strings")

/-- Rendering of a path as text (used in error messages only). -/
def pathText : Path → String
  | [] => ""
  | c :: cs => "/" ++ c ++ pathText cs

/-- Rendering of a joined path as text (used in error messages only). -/
def joinedText (j : Joined) : String :=
  if j.slash then pathText j.path ++ "/" else pathText j.path

/-- A node of the file tree. -/
inductive Entry where
  | file (content : String)
  | dir
  deriving DecidableEq, Repr

/-- The file tree: the node found at each path.  The first binding of a path
is the one in force. -/
abbrev FS := List (Path × Entry)

/-- Node at path `p`, if any. -/
def fsLookup : FS → Path → Option Entry
  | [], _ => none
  | (k, e) :: rest, p => if k = p then some e else fsLookup rest p

/-- Call `fs.existsSync(p)`. -/
def existsSync (fs : FS) (p : Path) : Bool := (fsLookup fs p).isSome

/-- Node designated by a joined path: a text that ends with a slash does not
designate a plain file. -/
def fsLookupJoined (fs : FS) (j : Joined) : Option Entry :=
  match fsLookup fs j.path with
  | some (.file content) => if j.slash then none else some (.file content)
  | some .dir => some .dir
  | none => none

/-- Call `fs.existsSync(j)` on the result of `path.join`. -/
def existsSyncJoined (fs : FS) (j : Joined) : Bool := (fsLookupJoined fs j).isSome

/-- Call `fs.readFileSync(p, 'utf8')`. -/
def readFileSync (fs : FS) (p : Path) : Except JsError String :=
  match fsLookup fs p with
  | some (.file content) => .ok content
  | some .dir => .error (.system "EISDIR" p)
  | none => .error (.system "ENOENT" p)

/-- Call `fs.lstat(j)` on the result of `path.join`, reduced to what the
module reads from the result: `stat.isDirectory()`. -/
def lstatIsDirectory (fs : FS) (j : Joined) : Except JsError Bool :=
  match fsLookup fs j.path with
  | some .dir => .ok true
  | some (.file _) => if j.slash then .error (.system "ENOTDIR" j.path) else .ok false
  | none => .error (.system "ENOENT" j.path)

/-- The name `n` when `k = p ++ [n]`. -/
def childName : Path → Path → Option String
  | [], [n] => some n
  | [], _ => none
  | _ :: _, [] => none
  | a :: p, b :: k => if a = b then childName p k else none

/-- Call `fs.readdir(p)`: the names of the immediate entries of a
directory. -/
def readdir (fs : FS) (p : Path) : Except JsError (List String) :=
  match fsLookup fs p with
  | some .dir => .ok (fs.filterMap (fun e => childName p e.1)).dedup
  | some (.file _) => .error (.system "ENOTDIR" p)
  | none => .error (.system "ENOENT" p)

/-- Call `fs.mkdir(p)`: fails when `p` exists or its parent is not a
directory. -/
def mkdir (fs : FS) (p : Path) : Except JsError Unit × FS :=
  if existsSync fs p then (.error (.system "EEXIST" p), fs)
  else
    match fsLookup fs p.dropLast with
    | some .dir => (.ok (), fs ++ [(p, .dir)])
    | some (.file _) => (.error (.system "ENOTDIR" p), fs)
    | none => (.error (.system "ENOENT" p), fs)

/-- The tree without `p` and everything below it. -/
def removeTree (fs : FS) (p : Path) : FS :=
  fs.filter (fun e => !(p.isPrefixOf e.1))

/-- Call `wrench.rmdirRecursive(p, false)`: fails when `p` cannot be listed,
otherwise removes `p` and everything below it.  The call needs a directory,
so a trailing slash in the text of `p` makes no difference and `p` is given
by its components. -/
def rmdirRecursive (fs : FS) (p : Path) : Except JsError Unit × FS :=
  match fsLookup fs p with
  | some .dir => (.ok (), removeTree fs p)
  | some (.file _) => (.error (.system "ENOTDIR" p), fs)
  | none => (.error (.system "ENOENT" p), fs)

/-- The entries strictly below `src`, moved below `dst`. -/
def copyBelow (fs : FS) (src dst : Path) : FS :=
  fs.filterMap (fun e =>
    if src.isPrefixOf e.1 ∧ e.1 ≠ src then some (dst ++ e.1.drop src.length, e.2) else none)

/-- Call `wrench.copyDirRecursive(src, dst, {forceDelete: true})`: an
existing `dst` is removed with everything below it, then `dst` is created
and the content of `src` is copied below it.  It fails when `dst` is a plain
file or `src` is not a directory, with or without a trailing slash in their
texts, so both are given by their components. -/
def copyDirRecursive (fs : FS) (src dst : Path) : Except JsError Unit × FS :=
  match fsLookup fs dst with
  | some (.file _) => (.error (.system "ENOTDIR" dst), fs)
  | _ =>
    match fsLookup (removeTree fs dst) src with
    | none => (.error (.system "ENOENT" src), removeTree fs dst)
    | some (.file _) => (.error (.system "ENOTDIR" src), removeTree fs dst)
    | some .dir =>
      match mkdir (removeTree fs dst) dst with
      | (.error e, fs2) => (.error e, fs2)
      | (.ok _, fs2) => (.ok (), fs2 ++ copyBelow (removeTree fs dst) src dst)

/-! ## The world: file tree, event log, collaborator calls -/

/-- An invocation of an external collaborator. -/
inductive Call where
  /-- Call `Gift.clone(git, dest)`. -/
  | clone (git : String) (dest : Path)
  /-- Call `hooks.use("addons", addon)`. -/
  | hook (addon : JsVal)
  /-- Run of `r.js` on the addon directory with entry module `main`. -/
  | rjs (addonPath : Path) (main : JsVal)
  /-- Run of `npm install .` in `dir`. -/
  | npmInstall (dir : Path)
  /-- Call `app.load([{packagePath}])`. -/
  | load (packagePath : Path)

/-- Whether the call is an `app.load` (made by `initNodeAddon` only). -/
def Call.isLoad : Call → Bool
  | .load _ => true
  | _ => false

/-- An event passed to `events.emit`. -/
structure Event where
  name : String
  payload : JsVal

/-- Paths fixed by `setup` (lines 20-22). -/
structure Config where
  defaultsPath : Path
  addonsPath : Path
  tempPath : Option Path

/-- Behaviour of what lies outside the module: `JSON.parse`, the clock and
the temporary-name generator, and the outcome of each collaborator.  The
collaborators' own writes to the file tree (the bundle written by `r.js`,
`node_modules`) are not part of the model. -/
structure Env where
  /-- Builtin `JSON.parse`. -/
  jsonParse : String → Except JsError JsVal
  /-- Directory picked by `temp.mkdir('addons')`. -/
  tempName : Path
  /-- Decimal text of `Date.now()`. -/
  now : String
  /-- File tree fetched by `Gift.clone`, with paths relative to the clone
  destination, or its error. -/
  gitClone : String → Except JsError FS
  /-- Verdict of `hooks.use("addons", addon)`. -/
  hook : JsVal → Except JsError Unit
  /-- Outcome of the `r.js` run. -/
  rjs : FS → Path → JsVal → Except JsError Unit
  /-- Outcome of `npm install .` in a directory. -/
  npmInstall : FS → Path → Except JsError Unit
  /-- Outcome of `app.load`. -/
  appLoad : FS → Path → Except JsError Unit

/-- State observed and changed by the module. -/
structure World where
  fs : FS
  events : List Event
  calls : List Call

/-- A promise-returning operation: its settled outcome and the world it
leaves. -/
abbrev Act (α : Type) := World → Except JsError α × World

/-- Chaining `m.then(f)`: `f` runs only if `m` resolved; a rejection skips
it. -/
def Act.andThen {α β : Type} (m : Act α) (f : α → Act β) : Act β := fun w =>
  match m w with
  | (.ok a, w1) => f a w1
  | (.error e, w1) => (.error e, w1)

/-- Runs a file-tree operation on the world's file tree. -/
def liftFs (op : FS → Except JsError Unit × FS) : Act Unit := fun w =>
  match op w.fs with
  | (r, fs1) => (r, { w with fs := fs1 })

/-! ## The addon manager -/

/-- Source lines 34-36: `fs.existsSync(path.join(defaultsPath, addon))`. -/
def isDefaultAddon (cfg : Config) (fs : FS) (addon : JsVal) : Except JsError Bool :=
  match pathJoin cfg.defaultsPath addon with
  | .error e => .error e
  | .ok p => .ok (existsSyncJoined fs p)

/-- Source lines 39-41, in boolean position: `addon.client && addon.client`. -/
def isClientside (addon : JsVal) : Except JsError Bool :=
  match getProp addon "client" with
  | .error e => .error e
  | .ok c => .ok (truthy c)

/-- Test `dir.indexOf('.') == 0`: the name starts with a dot. -/
def isHidden (dir : String) : Bool :=
  match dir.data with
  | c :: _ => c = '.'
  | [] => false

/-- Assignment `addons[dir] = addon` on the plain object `addons` (line 60),
as seen through its own keys: the key `__proto__` is the prototype accessor,
so assigning to it adds no own key. -/
def recordAddon (addons : List (String × JsVal)) (dir : String) (addon : JsVal) :
    List (String × JsVal) :=
  if dir = "__proto__" then addons else setKey addons dir addon

/-- Body of the `forEach` callback of `loadAddonsInfos` (lines 49-61) for one
directory name: the map `addons` after the callback, or the exception it
raises. -/
def loadEntry (cfg : Config) (env : Env) (fs : FS) (addons : List (String × JsVal))
    (dir : String) : Except JsError (List (String × JsVal)) :=
  if isHidden dir then .ok addons
  else
    let packageJsonFile := cfg.addonsPath ++ [dir, "package.json"]
    if !existsSync fs packageJsonFile then .ok addons
    else
      match readFileSync fs packageJsonFile with
      | .error e => .error e
      | .ok text =>
        match env.jsonParse text with
        | .error e => .error e
        | .ok addon =>
          match validPackage addon with
          | .error e => .error e
          | .ok false => .ok addons
          | .ok true =>
            match (getProp addon "name").bind (isDefaultAddon cfg fs) with
            | .error e => .error e
            | .ok d => .ok (recordAddon addons dir (setProp addon "default" (.bool d)))

/-- The `dirs.forEach(...)` loop: stops at the first exception. -/
def loadEntries (cfg : Config) (env : Env) (fs : FS) :
    List (String × JsVal) → List String → Except JsError (List (String × JsVal))
  | addons, [] => .ok addons
  | addons, dir :: rest =>
    match loadEntry cfg env fs addons dir with
    | .error e => .error e
    | .ok addons1 => loadEntries cfg env fs addons1 rest

/-- Source lines 44-65. -/
def loadAddonsInfos (cfg : Config) (env : Env) : Act (List (String × JsVal)) := fun w =>
  match readdir w.fs cfg.addonsPath with
  | .error e => (.error e, w)
  | .ok dirs => (loadEntries cfg env w.fs [] dirs, w)

/-- Source lines 69-77: hands `addonsPath/addon` to the host loader. -/
def initNodeAddon (cfg : Config) (env : Env) (addon : String) : Act Unit := fun w =>
  let addonPath := pathResolveStr cfg.addonsPath addon
  (env.appLoad w.fs addonPath, { w with calls := w.calls ++ [.load addonPath] })

/-- Source lines 80-131: runs the bundler on a client-side addon and resolves
with the output file. -/
def optimizeAddon (cfg : Config) (env : Env) (addon : JsVal) (name : String) : Act Path :=
  fun w =>
  match isClientside addon with
  | .error e => (.error e, w)
  | .ok false => (.error (.error "Not a cleint side addon"), w)
  | .ok true =>
    let addonPath := pathResolveStr cfg.addonsPath name
    match (getProp addon "client").bind (fun c => getProp c "main") with
    | .error e => (.error e, w)
    | .ok main =>
      let w1 := { w with calls := w.calls ++ [.rjs addonPath main] }
      match env.rjs w.fs addonPath main with
      | .error e => (.error e, w1)
      | .ok _ => (.ok (pathResolveStr addonPath "addon-built.js"), w1)

/-- Source lines 156-160: `npm install .` in `addonsPath/addon`.  The shell's
`cd` enters the same directory with or without a trailing slash, so the
directory is identified by its components. -/
def installDependencies (cfg : Config) (env : Env) (addon : String) : Act Unit := fun w =>
  let addonDir := (pathJoinStr cfg.addonsPath addon).path
  (env.npmInstall w.fs addonDir, { w with calls := w.calls ++ [.npmInstall addonDir] })

/-- The directory that `createTempDirectory` creates: the one `temp.mkdir`
picks, or `path.join(tempPath, "t" + Date.now())`. -/
def stagingPath (cfg : Config) (env : Env) : Path :=
  match cfg.tempPath with
  | none => env.tempName
  | some tp => (pathJoinStr tp ("t" ++ env.now)).path

/-- Source lines 172-181. -/
def createTempDirectory (cfg : Config) (env : Env) : Act Path := fun w =>
  match mkdir w.fs (stagingPath cfg env) with
  | (.error e, fs1) => (.error e, { w with fs := fs1 })
  | (.ok _, fs1) => (.ok (stagingPath cfg env), { w with fs := fs1 })

/-- Call `Q.nfcall(Gift.clone, git, tempDir)` (line 187): on success the
fetched tree is written below `tempDir`. -/
def giftClone (env : Env) (git : String) (tempDir : Path) : Act Unit := fun w =>
  let w1 := { w with calls := w.calls ++ [.clone git tempDir] }
  match env.gitClone git with
  | .error e => (.error e, w1)
  | .ok tree => (.ok (), { w1 with fs := w1.fs ++ tree.map (fun t => (tempDir ++ t.1, t.2)) })

/-- Handler of lines 188-203 up to the hook call: reads and validates the
staged `package.json` (`path.join(tempDir, "package.json")` is `tempDir` with
one more component) and computes `addonDir`.  Resolves with the descriptor,
its name and the components of `addonDir`. -/
def checkAddon (cfg : Config) (env : Env) (tempDir : Path) : Act (JsVal × String × Path) :=
  fun w =>
  let packageJsonFile := tempDir ++ ["package.json"]
  if !existsSync w.fs packageJsonFile then
    (.error (.error "No 'package.json' in this repository"), w)
  else
    match readFileSync w.fs packageJsonFile with
    | .error e => (.error e, w)
    | .ok text =>
      match env.jsonParse text with
      | .error e => (.error e, w)
      | .ok addon =>
        match validPackage addon with
        | .error e => (.error e, w)
        | .ok false => (.error (.error "Invalid 'package.json' file"), w)
        | .ok true =>
          match getProp addon "name" with
          | .ok (.str name) =>
            (.ok (addon, name, (pathJoinStr cfg.addonsPath name).path), w)
          | .ok _ => (.error (.typeError "Arguments to path.join must be strings"), w)
          | .error e => (.error e, w)

/-- Call `hooks.use("addons", addon)` (line 203). -/
def useHook (env : Env) (addon : JsVal) : Act Unit := fun w =>
  (env.hook addon, { w with calls := w.calls ++ [.hook addon] })

/-- Lines 184-204 of `installAddon`: create the staging directory, fetch,
validate, authorise.  Resolves with the staging directory, the descriptor,
its name and `addonDir`. -/
def installPrepare (cfg : Config) (env : Env) (git : String) :
    Act (Path × JsVal × String × Path) :=
  (createTempDirectory cfg env).andThen fun tempDir =>
  (giftClone env git tempDir).andThen fun _ =>
  (checkAddon cfg env tempDir).andThen fun checked =>
  (useHook env checked.1).andThen fun _ =>
  fun w => (.ok (tempDir, checked), w)

/-- Lines 204-210 of `installAddon`: copy the staged tree to `addonDir`, then
remove the staging directory. -/
def installCommit (tempDir addonDir : Path) : Act Unit :=
  (liftFs (fun fs => copyDirRecursive fs tempDir addonDir)).andThen fun _ =>
  liftFs (fun fs => rmdirRecursive fs tempDir)

/-- Handler of lines 210-214: optimise a client-side addon. -/
def installOptimize (cfg : Config) (env : Env) (addon : JsVal) (name : String) : Act Unit :=
  fun w =>
  match isClientside addon with
  | .error e => (.error e, w)
  | .ok false => (.ok (), w)
  | .ok true => ((optimizeAddon cfg env addon name).andThen fun _ => fun w1 => (.ok (), w1)) w

/-- Handler of lines 217-221: initialise a node addon. -/
def installActivate (cfg : Config) (env : Env) (addon : JsVal) (name : String) : Act Unit :=
  fun w =>
  match jsNot (getProp addon "main") with
  | .error e => (.error e, w)
  | .ok true => (.ok (), w)
  | .ok false => initNodeAddon cfg env name w

/-- Handler of lines 221-227: reload the addons list. -/
def installReload (cfg : Config) (env : Env) (reload : Bool) : Act Unit := fun w =>
  if !reload then (.ok (), w)
  else ((loadAddonsInfos cfg env).andThen fun _ => fun w1 => (.ok (), w1)) w

/-- Handler of lines 227-233: emit `addons.install` and resolve with the
descriptor. -/
def installNotify (addon : JsVal) : Act JsVal := fun w =>
  (.ok addon, { w with events := w.events ++ [⟨"addons.install", addon⟩] })

/-- Lines 210-233 of `installAddon`: what follows the commit. -/
def installFinish (cfg : Config) (env : Env) (addon : JsVal) (name : String)
    (reload : Bool) : Act JsVal :=
  (installOptimize cfg env addon name).andThen fun _ =>
  (installDependencies cfg env name).andThen fun _ =>
  (installActivate cfg env addon name).andThen fun _ =>
  (installReload cfg env reload).andThen fun _ =>
  installNotify addon

/-- Source lines 163-234, with `reload` the value of `options.reload` after
the defaults are applied. -/
def installAddon (cfg : Config) (env : Env) (git : String) (reload : Bool) : Act JsVal :=
  (installPrepare cfg env git).andThen fun staged =>
  (installCommit staged.1 staged.2.2.2).andThen fun _ =>
  installFinish cfg env staged.2.1 staged.2.2.1 reload

/-- Source lines 237-251.  An exception raised by `path.join` before any
promise is returned is reported as the error outcome as well. -/
def uninstallAddon (cfg : Config) (name : JsVal) : Act Bool := fun w =>
  match pathJoin cfg.addonsPath name with
  | .error e => (.error e, w)
  | .ok addonDir =>
    match isDefaultAddon cfg w.fs name with
    | .error e => (.error e, w)
    | .ok true => (.error (.error "Cannot uninstall a default addon"), w)
    | .ok false =>
      match rmdirRecursive w.fs addonDir.path with
      | (.error e, fs1) => (.error e, { w with fs := fs1 })
      | (.ok _, fs1) =>
        (.ok true,
          { w with fs := fs1,
                   events := w.events ++ [⟨"addons.uninstall", .obj [("name", name)]⟩] })

/-- Callback of lines 256-277 for one entry of the defaults directory. -/
def syncDefault (cfg : Config) (env : Env) (dir : String) : Act Unit := fun w =>
  let defaultAddon := pathJoinStr cfg.defaultsPath dir
  let addonPath := pathJoinStr cfg.addonsPath dir
  match lstatIsDirectory w.fs defaultAddon with
  | .error e => (.error e, w)
  | .ok false =>
    (.error (.error ("There is a file inside defaults addons directory: "
      ++ joinedText defaultAddon)), w)
  | .ok true =>
    ((liftFs (fun fs => copyDirRecursive fs defaultAddon.path addonPath.path)).andThen fun _ =>
      installDependencies cfg env dir) w

/-- Call `Q.allSettled(_.map(dirs, ...))`: every entry is processed and its
outcome collected, in the order of `dirs`.  The entries, which the source
starts together, are run one after the other here. -/
def settleDefaults (cfg : Config) (env : Env) :
    List String → World → List (Except JsError Unit) × World
  | [], w => ([], w)
  | dir :: rest, w =>
    match syncDefault cfg env dir w with
    | (r, w1) =>
      match settleDefaults cfg env rest w1 with
      | (rs, w2) => (r :: rs, w2)

/-- Source lines 254-279. -/
def installDefaults (cfg : Config) (env : Env) : Act (List (Except JsError Unit)) := fun w =>
  match readdir w.fs cfg.defaultsPath with
  | .error e => (.error e, w)
  | .ok dirs =>
    match settleDefaults cfg env dirs w with
    | (rs, w1) => (.ok rs, w1)

/-! ## Predicates used in the statements -/

/-- Whether property `key` of `m` can be read and is truthy. -/
def present (m : JsVal) (key : String) : Bool :=
  match getProp m key with
  | .ok v => truthy v
  | .error _ => false

/-- The world `w1` has the events of `w` and the same node as `w` at every
path that is not `t` or below it. -/
def SameOutside (t : Path) (w w1 : World) : Prop :=
  w1.events = w.events ∧ ∀ p, ¬ t <+: p → fsLookup w1.fs p = fsLookup w.fs p

/-- The calls made between `w` and `w1` include no `app.load`. -/
def NoLoadSince (w w1 : World) : Prop :=
  ∃ made, w1.calls = w.calls ++ made ∧ made.any Call.isLoad = false

/-- A directory at `p` in `w` is still there in `w1`. -/
def KeepsDir (p : Path) (w w1 : World) : Prop :=
  fsLookup w.fs p = some .dir → fsLookup w1.fs p = some .dir

/-- The scan records `v` under the directory name `dir`: the entry is not
hidden, is not named `__proto__`, and its `package.json` reads and parses to
a descriptor that `validPackage` accepts and whose name is a string; `v` is
that descriptor with its `default` flag set. -/
def Recorded (cfg : Config) (env : Env) (fs : FS) (dir : String) (v : JsVal) : Prop :=
  isHidden dir = false ∧
  dir ≠ "__proto__" ∧
  ∃ text addon name,
    readFileSync fs (cfg.addonsPath ++ [dir, "package.json"]) = .ok text ∧
    env.jsonParse text = .ok addon ∧
    validPackage addon = .ok true ∧
    getProp addon "name" = .ok (.str name) ∧
    v = setProp addon "default"
      (.bool (existsSyncJoined fs (pathJoinStr cfg.defaultsPath name)))

/-- A name that is a single path component: not empty, without `/`, and
neither `.` nor `..`. -/
def isPlainName (s : String) : Bool :=
  decide (s ≠ "" ∧ '/' ∉ s.data ∧ s ≠ "." ∧ s ≠ "..")

/-- The path `p` is in the tree together with every directory above it
(`p.inits` lists `p` and the paths above it). -/
def Present (fs : FS) (p : Path) : Prop :=
  ∀ q ∈ p.inits, existsSync fs q = true

/-- The `package.json` of entry `dir`, when the entry is not hidden and has
one, reads and parses, `validPackage` returns a boolean on the result, and
an accepted descriptor has a string name. -/
def Scannable (cfg : Config) (env : Env) (fs : FS) (dir : String) : Prop :=
  isHidden dir = false →
  existsSync fs (cfg.addonsPath ++ [dir, "package.json"]) = true →
  ∃ text addon,
    readFileSync fs (cfg.addonsPath ++ [dir, "package.json"]) = .ok text ∧
    env.jsonParse text = .ok addon ∧
    (validPackage addon = .ok false ∨
      (validPackage addon = .ok true ∧ ∃ name, getProp addon "name" = .ok (.str name)))

/-! ## Sample data for the examples -/

/-- Text of a `package.json` for a server-side addon named `hello`. -/
def helloJson : String :=
  "\x7b\"name\":\"hello\",\"version\":\"1.0\",\"main\":\"index.js\"\x7d"
/-- Value of `JSON.parse(helloJson)`. -/
def helloVal : JsVal :=
  .obj [("name", .str "hello"), ("version", .str "1.0"), ("main", .str "index.js")]
/-- Text of a `package.json` for a client-side addon named `extra`. -/
def extraJson : String :=
  "\x7b\"name\":\"extra\",\"version\":\"0.2\",\"client\":\x7b\"main\":\"client\"\x7d\x7d"
/-- Value of `JSON.parse(extraJson)`. -/
def extraVal : JsVal :=
  .obj [("name", .str "extra"), ("version", .str "0.2"), ("client", .obj [("main", .str "client")])]
/-- Text of a `package.json` whose name starts with a dot. -/
def hiddenJson : String :=
  "\x7b\"name\":\".secret\",\"version\":\"1.0\",\"main\":\"index.js\"\x7d"
/-- Value of `JSON.parse(hiddenJson)`. -/
def hiddenVal : JsVal :=
  .obj [("name", .str ".secret"), ("version", .str "1.0"), ("main", .str "index.js")]
/-- Text of a `package.json` for a server-side addon named `needy`. -/
def needyJson : String :=
  "\x7b\"name\":\"needy\",\"version\":\"1.0\",\"main\":\"index.js\"\x7d"
/-- Value of `JSON.parse(needyJson)`. -/
def needyVal : JsVal :=
  .obj [("name", .str "needy"), ("version", .str "1.0"), ("main", .str "index.js")]

/-- Text of a `package.json` whose name is `__proto__`. -/
def protoJson : String :=
  "\x7b\"name\":\"__proto__\",\"version\":\"1.0\",\"main\":\"index.js\"\x7d"
/-- Value of `JSON.parse(protoJson)`. -/
def protoVal : JsVal :=
  .obj [("name", .str "__proto__"), ("version", .str "1.0"), ("main", .str "index.js")]

/-- Text of a `package.json` whose name has two path components. -/
def nestedJson : String :=
  "\x7b\"name\":\"hello/sub\",\"version\":\"1.0\",\"main\":\"index.js\"\x7d"
/-- Value of `JSON.parse(nestedJson)`. -/
def nestedVal : JsVal :=
  .obj [("name", .str "hello/sub"), ("version", .str "1.0"), ("main", .str "index.js")]

/-- Text of a `package.json` without a version. -/
def draftJson : String :=
  "\x7b\"name\":\"draft\"\x7d"
/-- Value of `JSON.parse(draftJson)`. -/
def draftVal : JsVal :=
  .obj [("name", .str "draft")]

/-- The builtin `JSON.parse` on the texts used in the examples; any other text
is taken to be malformed. -/
def sampleParse (text : String) : Except JsError JsVal :=
  if text = helloJson then .ok helloVal
  else if text = draftJson then .ok draftVal
  else if text = extraJson then .ok extraVal
  else if text = hiddenJson then .ok hiddenVal
  else if text = needyJson then .ok needyVal
  else if text = protoJson then .ok protoVal
  else if text = nestedJson then .ok nestedVal
  else .error (.syntaxError "Unexpected token")

/-- A fetch collaborator that knows seven repositories and fails on any other
url. -/
def sampleClone (git : String) : Except JsError FS :=
  if git = "git://host/hello.git" then
    .ok [(["package.json"], .file helloJson), (["index.js"], .file "module.exports = 1;")]
  else if git = "git://host/secret.git" then
    .ok [(["package.json"], .file hiddenJson), (["index.js"], .file "module.exports = 1;")]
  else if git = "git://host/needy.git" then
    .ok [(["package.json"], .file needyJson), (["index.js"], .file "module.exports = 1;")]
  else if git = "git://host/proto.git" then
    .ok [(["package.json"], .file protoJson), (["index.js"], .file "module.exports = 1;")]
  else if git = "git://host/nested.git" then
    .ok [(["package.json"], .file nestedJson), (["index.js"], .file "module.exports = 1;")]
  else if git = "git://host/tree.git" then
    .ok [(["addons"], .dir), (["addons", "README"], .file "nothing here")]
  else if git = "git://host/bare.git" then
    .ok [(["README"], .file "nothing here")]
  else .error (.external "clone failed")

/-- Configuration of the examples. -/
def sampleConfig : Config :=
  { defaultsPath := ["app", "defaults"], addonsPath := ["app", "addons"], tempPath := some ["tmp"] }

/-- Configuration whose staging directories are created inside the registry
root. -/
def nestedTempConfig : Config :=
  { defaultsPath := ["app", "defaults"], addonsPath := ["app", "addons"],
    tempPath := some ["app", "addons"] }

/-- Configuration whose registry root lies below the path of a staging
directory. -/
def aboveTempConfig : Config :=
  { defaultsPath := ["app", "defaults"], addonsPath := ["tmp", "t1380000000000", "addons"],
    tempPath := some ["tmp"] }

/-- Configuration whose template root and registry root have different
parents. -/
def splitConfig : Config :=
  { defaultsPath := ["app", "defaults"], addonsPath := ["srv", "addons"], tempPath := some ["tmp"] }

/-- Collaborators of the examples: the hook approves, the bundler and the
loader succeed, `npm install` fails for the addon `needy` only. -/
def sampleEnv : Env :=
  { jsonParse := sampleParse
    tempName := ["tmp", "addons-1"]
    now := "1380000000000"
    gitClone := sampleClone
    hook := fun _ => .ok ()
    rjs := fun _ _ _ => .ok ()
    npmInstall := fun _ dir =>
      if dir = ["app", "addons", "needy"] then .error (.external "npm install failed") else .ok ()
    appLoad := fun _ _ => .ok () }

/-- File tree with one default addon (`hello`) and two installed addons. -/
def sampleFs : FS :=
  [([], .dir), (["app"], .dir), (["tmp"], .dir),
   (["app", "defaults"], .dir),
   (["app", "defaults", "hello"], .dir),
   (["app", "defaults", "hello", "package.json"], .file helloJson),
   (["app", "addons"], .dir),
   (["app", "addons", "hello"], .dir),
   (["app", "addons", "hello", "package.json"], .file helloJson),
   (["app", "addons", "extra"], .dir),
   (["app", "addons", "extra", "package.json"], .file extraJson)]

/-- World over `sampleFs`. -/
def sampleWorld : World := { fs := sampleFs, events := [], calls := [] }

/-- World for `splitConfig`: one default addon and two installed addons. -/
def splitWorld : World :=
  { fs := [([], .dir), (["app"], .dir), (["srv"], .dir), (["tmp"], .dir),
      (["app", "defaults"], .dir),
      (["app", "defaults", "hello"], .dir),
      (["app", "defaults", "hello", "package.json"], .file helloJson),
      (["srv", "addons"], .dir),
      (["srv", "addons", "hello"], .dir),
      (["srv", "addons", "hello", "package.json"], .file helloJson),
      (["srv", "addons", "extra"], .dir),
      (["srv", "addons", "extra", "package.json"], .file extraJson)]
    events := []
    calls := [] }

/-- World whose registry also holds an invalid descriptor, a hidden directory
and a directory without `package.json`. -/
def scanWorld : World :=
  { fs := sampleFs ++
      [(["app", "addons", "draft"], .dir),
       (["app", "addons", "draft", "package.json"], .file draftJson),
       (["app", "addons", ".git"], .dir),
       (["app", "addons", "notes"], .dir),
       (["app", "addons", "notes", "todo.txt"], .file "nothing yet")]
    events := []
    calls := [] }

/-- World whose registry holds an entry with a malformed `package.json`. -/
def brokenWorld : World :=
  { fs := sampleFs ++
      [(["app", "addons", "broken"], .dir),
       (["app", "addons", "broken", "package.json"], .file "not json")]
    events := []
    calls := [] }

/-- World whose template root holds one addon directory and one plain file. -/
def mixedDefaultsWorld : World :=
  { fs := [([], .dir), (["app"], .dir), (["tmp"], .dir),
      (["app", "defaults"], .dir),
      (["app", "defaults", "hello"], .dir),
      (["app", "defaults", "hello", "package.json"], .file helloJson),
      (["app", "defaults", "README"], .file "default addons"),
      (["app", "addons"], .dir)]
    events := []
    calls := [] }

/-- World in which the registry root of `aboveTempConfig` does not exist. -/
def rootlessWorld : World :=
  { fs := [([], .dir), (["tmp"], .dir)]
    events := []
    calls := [] }

/-- World without a template root. -/
def bareWorld : World :=
  { fs := [([], .dir), (["app"], .dir), (["app", "addons"], .dir)]
    events := []
    calls := [] }


/-! ## Paths -/

theorem splitSlash_of_no_slash (l : List Char) (h : '/' ∉ l) : splitSlash l = [l] := by
  induction l with
  | nil => rfl
  | cons c cs ih =>
    have hc : c ≠ '/' := fun hc => h (hc ▸ List.mem_cons_self _ _)
    have hcs : '/' ∉ cs := fun hm => h (List.mem_cons_of_mem _ hm)
    simp [splitSlash, hc, ih hcs]

theorem endsWithSlash_of_no_slash (l : List Char) (h : '/' ∉ l) :
    endsWithSlash l = false := by
  induction l with
  | nil => rfl
  | cons c cs ih =>
    cases cs with
    | nil =>
      have hc : c ≠ '/' := fun hc => h (hc ▸ List.mem_cons_self _ _)
      simp [endsWithSlash, hc]
    | cons c2 cs2 =>
      simp only [endsWithSlash]
      exact ih (fun hm => h (List.mem_cons_of_mem _ hm))

theorem pathResolveStr_of_plain (base : Path) (s : String) (hslash : '/' ∉ s.data)
    (hne : s ≠ "") (hdot : s ≠ ".") (hdots : s ≠ "..") :
    pathResolveStr base s = base ++ [s] := by
  unfold pathResolveStr
  rw [splitSlash_of_no_slash _ hslash]
  simp [normalizeOnto, hne, hdot, hdots]

theorem pathJoinStr_of_plain (base : Path) (s : String) (hslash : '/' ∉ s.data)
    (hne : s ≠ "") (hdot : s ≠ ".") (hdots : s ≠ "..") :
    pathJoinStr base s = { path := base ++ [s], slash := false } := by
  unfold pathJoinStr
  rw [pathResolveStr_of_plain base s hslash hne hdot hdots,
    endsWithSlash_of_no_slash _ hslash]
  rfl

theorem plain_of_isPlainName {s : String} (h : isPlainName s = true) :
    s ≠ "" ∧ '/' ∉ s.data ∧ s ≠ "." ∧ s ≠ ".." := by
  simpa [isPlainName] using h

theorem existsSyncJoined_of_no_slash (fs : FS) (p : Path) :
    existsSyncJoined fs { path := p, slash := false } = existsSync fs p := by
  unfold existsSyncJoined fsLookupJoined existsSync
  cases h : fsLookup fs p with
  | none => rfl
  | some x => cases x <;> rfl

theorem ne_dot_of_not_hidden {s : String} (h : isHidden s = false) : s ≠ "." ∧ s ≠ ".." := by
  constructor <;> intro hs <;> subst hs <;> exact absurd h (by decide)

theorem below_of_common_extension {a b p : Path} (ha : a <+: p) (hb : b <+: p)
    (hab : ¬ a <+: b) : b <+: a := by
  rcases List.prefix_or_prefix_of_prefix ha hb with h | h
  · exact absurd h hab
  · exact h

/-! ## The file tree -/

theorem fsLookup_removeTree_below (fs : FS) (p q : Path) (h : p <+: q) :
    fsLookup (removeTree fs p) q = none := by
  induction fs with
  | nil => rfl
  | cons e rest ih =>
    obtain ⟨k, x⟩ := e
    cases hk : p.isPrefixOf k with
    | true => simpa [removeTree, List.filter_cons, hk] using ih
    | false =>
      have hne : k ≠ q := by
        intro hkq
        rw [hkq, List.isPrefixOf_iff_prefix.mpr h] at hk
        exact Bool.noConfusion hk
      simpa [removeTree, List.filter_cons, hk, fsLookup, hne] using ih

theorem fsLookup_removeTree_elsewhere (fs : FS) (p q : Path) (h : ¬ p <+: q) :
    fsLookup (removeTree fs p) q = fsLookup fs q := by
  induction fs with
  | nil => rfl
  | cons e rest ih =>
    obtain ⟨k, x⟩ := e
    cases hk : p.isPrefixOf k with
    | true =>
      have hne : k ≠ q := fun hkq => h (hkq ▸ List.isPrefixOf_iff_prefix.mp hk)
      simpa [removeTree, List.filter_cons, hk, fsLookup, hne] using ih
    | false =>
      by_cases hkq : k = q
      · subst hkq
        simp [removeTree, List.filter_cons, hk, fsLookup]
      · simpa [removeTree, List.filter_cons, hk, fsLookup, hkq] using ih

theorem fsLookup_append_of_forall_ne (fs extra : FS) (p : Path)
    (h : ∀ e ∈ extra, e.1 ≠ p) : fsLookup (fs ++ extra) p = fsLookup fs p := by
  induction fs with
  | nil =>
    induction extra with
    | nil => rfl
    | cons e rest ih =>
      obtain ⟨k, x⟩ := e
      have hk : k ≠ p := h (k, x) (List.mem_cons_self _ _)
      have := ih (fun e he => h e (List.mem_cons_of_mem _ he))
      simpa [fsLookup, hk] using this
  | cons e rest ih =>
    obtain ⟨k, x⟩ := e
    by_cases hk : k = p
    · simp [fsLookup, hk]
    · simpa [fsLookup, hk] using ih

theorem fsLookup_append_of_some (fs extra : FS) (p : Path) (x : Entry)
    (h : fsLookup fs p = some x) : fsLookup (fs ++ extra) p = some x := by
  induction fs with
  | nil => simp [fsLookup] at h
  | cons e rest ih =>
    obtain ⟨k, y⟩ := e
    by_cases hk : k = p
    · simpa [fsLookup, hk] using h
    · simp only [List.cons_append, fsLookup, hk, if_false] at h ⊢
      exact ih h

theorem fsLookup_append_of_none (fs extra : FS) (p : Path)
    (h : fsLookup fs p = none) : fsLookup (fs ++ extra) p = fsLookup extra p := by
  induction fs with
  | nil => rfl
  | cons e rest ih =>
    obtain ⟨k, y⟩ := e
    by_cases hk : k = p
    · simp [fsLookup, hk] at h
    · simp only [List.cons_append, fsLookup, hk, if_false] at h ⊢
      exact ih h

theorem fsLookup_some_mem {fs : FS} {p : Path} {x : Entry} (h : fsLookup fs p = some x) :
    (p, x) ∈ fs := by
  induction fs with
  | nil => simp [fsLookup] at h
  | cons e rest ih =>
    obtain ⟨k, y⟩ := e
    by_cases hk : k = p
    · simp [fsLookup, hk] at h
      simp [hk, h]
    · simp only [fsLookup, hk, if_false] at h
      exact List.mem_cons_of_mem _ (ih h)

theorem fsLookup_copyBelow (fs : FS) (src dst r : Path) (hr : r ≠ []) :
    fsLookup (copyBelow fs src dst) (dst ++ r) = fsLookup fs (src ++ r) := by
  induction fs with
  | nil => rfl
  | cons e rest ih =>
    obtain ⟨k, x⟩ := e
    have hsr : src ++ r ≠ src := by
      intro h
      exact hr (List.append_right_eq_self.mp h)
    by_cases hk : src.isPrefixOf k = true ∧ k ≠ src
    · obtain ⟨hp, hks⟩ := hk
      obtain ⟨k2, hk2⟩ := List.isPrefixOf_iff_prefix.mp hp
      subst hk2
      have hdrop : (src ++ k2).drop src.length = k2 := by simp
      by_cases hkr : k2 = r
      · subst hkr
        simp [copyBelow, List.filterMap_cons, hp, hks, fsLookup]
      · have h1 : src ++ k2 ≠ src ++ r := fun h => hkr (List.append_cancel_left h)
        have h2 : dst ++ k2 ≠ dst ++ r := fun h => hkr (List.append_cancel_left h)
        have ih2 : fsLookup (copyBelow rest src dst) (dst ++ r) = fsLookup rest (src ++ r) := ih
        simp only [copyBelow, List.filterMap_cons, hp, hks, ne_eq, not_false_eq_true,
          and_self, if_true, hdrop, fsLookup, h1, h2, if_false]
        exact ih2
    · have hne : k ≠ src ++ r := by
        intro h
        apply hk
        subst h
        exact ⟨List.isPrefixOf_iff_prefix.mpr (List.prefix_append _ _), hsr⟩
      have ih2 : fsLookup (copyBelow rest src dst) (dst ++ r) = fsLookup rest (src ++ r) := ih
      simp only [copyBelow, List.filterMap_cons, hk, if_false, fsLookup, hne]
      exact ih2

theorem childName_append (p : Path) (n : String) : childName p (p ++ [n]) = some n := by
  induction p with
  | nil => rfl
  | cons a rest ih => simp [childName, ih]

theorem mem_readdir {fs : FS} {p : Path} {dirs : List String} {n : String} {x : Entry}
    (hlist : readdir fs p = .ok dirs) (h : fsLookup fs (p ++ [n]) = some x) : n ∈ dirs := by
  unfold readdir at hlist
  split at hlist <;> simp at hlist
  subst hlist
  rw [List.mem_dedup, List.mem_filterMap]
  exact ⟨(p ++ [n], x), fsLookup_some_mem h, childName_append p n⟩

theorem readFileSync_ok_exists {fs : FS} {p : Path} {text : String}
    (h : readFileSync fs p = .ok text) : existsSync fs p = true := by
  unfold readFileSync at h
  unfold existsSync
  split at h <;> simp_all

theorem readFileSync_eq_ok {fs : FS} {p : Path} {text : String}
    (h : readFileSync fs p = .ok text) : fsLookup fs p = some (.file text) := by
  unfold readFileSync at h
  split at h <;> simp at h
  rename_i c hc
  rw [hc, h]

theorem readFileSync_of_lookup {fs : FS} {p : Path} {text : String}
    (h : fsLookup fs p = some (.file text)) : readFileSync fs p = .ok text := by
  simp [readFileSync, h]

theorem mkdir_eq_ok {fs fs1 : FS} {p : Path} (h : mkdir fs p = (.ok (), fs1)) :
    fsLookup fs p = none ∧ fs1 = fs ++ [(p, .dir)] := by
  unfold mkdir at h
  split_ifs at h with hex
  · simp at h
  · have hnone : fsLookup fs p = none := by
      simpa [existsSync] using hex
    refine ⟨hnone, ?_⟩
    split at h <;> simp at h
    exact h.symm

theorem fsLookup_after_mkdir {fs fs1 : FS} {p : Path} (h : mkdir fs p = (.ok (), fs1)) :
    fsLookup fs1 p = some .dir := by
  obtain ⟨hnone, hfs⟩ := mkdir_eq_ok h
  rw [hfs, fsLookup_append_of_none _ _ _ hnone]
  simp [fsLookup]

theorem rmdirRecursive_eq_ok {fs fs1 : FS} {p : Path}
    (h : rmdirRecursive fs p = (.ok (), fs1)) : fs1 = removeTree fs p := by
  unfold rmdirRecursive at h
  split at h <;> simp at h
  exact h.symm

theorem copyDirRecursive_eq_ok {fs fs1 : FS} {src dst : Path}
    (h : copyDirRecursive fs src dst = (.ok (), fs1)) :
    fsLookup (removeTree fs dst) src = some .dir ∧
    fs1 = (removeTree fs dst ++ [(dst, .dir)]) ++ copyBelow (removeTree fs dst) src dst := by
  unfold copyDirRecursive at h
  split at h
  · simp at h
  · split at h
    · simp at h
    · simp at h
    · rename_i hsrc
      refine ⟨hsrc, ?_⟩
      split at h
      · simp at h
      · rename_i u fs2 hmk
        simp only [Prod.mk.injEq, true_and] at h
        have hfs2 := (mkdir_eq_ok hmk).2
        rw [← h, hfs2]

theorem copyDirRecursive_ok_not_file {fs fs1 : FS} {src dst : Path}
    (h : copyDirRecursive fs src dst = (.ok (), fs1)) (content : String) :
    fsLookup fs dst ≠ some (.file content) := by
  intro hfile
  simp [copyDirRecursive, hfile] at h

theorem readdir_eq_ok {fs : FS} {p : Path} {dirs : List String}
    (h : readdir fs p = .ok dirs) : fsLookup fs p = some .dir := by
  unfold readdir at h
  split at h <;> simp at h
  assumption

/-! ## Field lists -/

theorem lookupKey_setKey_self (m : List (String × JsVal)) (k : String) (v : JsVal) :
    lookupKey (setKey m k v) k = some v := by
  induction m with
  | nil => simp [setKey, lookupKey]
  | cons e rest ih =>
    obtain ⟨k1, v1⟩ := e
    by_cases h : k1 = k
    · simp [setKey, lookupKey, h]
    · simpa [setKey, lookupKey, h] using ih

theorem lookupKey_setKey_of_ne (m : List (String × JsVal)) (k k2 : String) (v : JsVal)
    (hne : k2 ≠ k) : lookupKey (setKey m k v) k2 = lookupKey m k2 := by
  have hne2 : k ≠ k2 := fun h => hne h.symm
  induction m with
  | nil => simp [setKey, lookupKey, hne2]
  | cons e rest ih =>
    obtain ⟨k1, v1⟩ := e
    by_cases h : k1 = k
    · subst h
      simp [setKey, lookupKey, hne2]
    · by_cases h2 : k1 = k2
      · subst h2
        simp [setKey, lookupKey, h]
      · simpa [setKey, lookupKey, h, h2] using ih

/-! ## Promise chains -/

theorem andThen_of_ok {α β : Type} {m : Act α} {f : α → Act β} {w w1 : World} {a : α}
    (h : m w = (.ok a, w1)) : (m.andThen f) w = f a w1 := by
  simp [Act.andThen, h]

theorem andThen_of_error {α β : Type} {m : Act α} {f : α → Act β} {w w1 : World}
    {e : JsError} (h : m w = (.error e, w1)) : (m.andThen f) w = (.error e, w1) := by
  simp [Act.andThen, h]

theorem andThen_eq_ok {α β : Type} {m : Act α} {f : α → Act β} {w w2 : World} {b : β}
    (h : (m.andThen f) w = (.ok b, w2)) :
    ∃ a w1, m w = (.ok a, w1) ∧ f a w1 = (.ok b, w2) := by
  unfold Act.andThen at h
  rcases hm : m w with ⟨r, w1⟩
  rw [hm] at h
  cases r with
  | error e => simp at h
  | ok a => exact ⟨a, w1, rfl, h⟩

theorem andThen_eq_error {α β : Type} {m : Act α} {f : α → Act β} {w w2 : World}
    {e : JsError} (h : (m.andThen f) w = (.error e, w2)) :
    m w = (.error e, w2) ∨ ∃ a w1, m w = (.ok a, w1) ∧ f a w1 = (.error e, w2) := by
  unfold Act.andThen at h
  rcases hm : m w with ⟨r, w1⟩
  rw [hm] at h
  cases r with
  | error e1 => left; simpa using h
  | ok a => right; exact ⟨a, w1, rfl, h⟩

theorem rel_andThen {α β : Type} {R : World → World → Prop} {m : Act α} {f : α → Act β}
    {w : World} (htrans : ∀ a b c, R a b → R b c → R a c)
    (hm : R w (m w).2)
    (hf : ∀ a w1, m w = (.ok a, w1) → R w1 (f a w1).2) :
    R w ((m.andThen f) w).2 := by
  unfold Act.andThen
  rcases hmw : m w with ⟨r, w1⟩
  rw [hmw] at hm
  cases r with
  | error e => exact hm
  | ok a => exact htrans _ _ _ hm (hf a w1 hmw)

theorem sameOutside_refl (t : Path) (w : World) : SameOutside t w w :=
  ⟨rfl, fun _ _ => rfl⟩

theorem sameOutside_trans {t : Path} {w w1 w2 : World}
    (h1 : SameOutside t w w1) (h2 : SameOutside t w1 w2) : SameOutside t w w2 :=
  ⟨h2.1.trans h1.1, fun p hp => (h2.2 p hp).trans (h1.2 p hp)⟩

theorem sameOutside_andThen {α β : Type} {t : Path} {m : Act α} {f : α → Act β} {w : World}
    (hm : SameOutside t w (m w).2)
    (hf : ∀ a w1, m w = (.ok a, w1) → SameOutside t w1 (f a w1).2) :
    SameOutside t w ((m.andThen f) w).2 :=
  rel_andThen (fun _ _ _ h1 h2 => sameOutside_trans h1 h2) hm hf

theorem keepsDir_andThen {α β : Type} {p : Path} {m : Act α} {f : α → Act β} {w : World}
    (hm : KeepsDir p w (m w).2)
    (hf : ∀ a w1, m w = (.ok a, w1) → KeepsDir p w1 (f a w1).2) :
    KeepsDir p w ((m.andThen f) w).2 :=
  rel_andThen (fun _ _ _ h1 h2 h => h2 (h1 h)) hm hf

theorem noLoadSince_refl (w : World) : NoLoadSince w w :=
  ⟨[], by simp, rfl⟩

theorem noLoadSince_trans {w w1 w2 : World} (h1 : NoLoadSince w w1) (h2 : NoLoadSince w1 w2) :
    NoLoadSince w w2 := by
  obtain ⟨m1, hc1, hn1⟩ := h1
  obtain ⟨m2, hc2, hn2⟩ := h2
  refine ⟨m1 ++ m2, ?_, ?_⟩
  · rw [hc2, hc1, List.append_assoc]
  · simp [List.any_append, hn1, hn2]

theorem noLoadSince_andThen {α β : Type} {m : Act α} {f : α → Act β} {w : World}
    (hm : NoLoadSince w (m w).2)
    (hf : ∀ a w1, m w = (.ok a, w1) → NoLoadSince w1 (f a w1).2) :
    NoLoadSince w ((m.andThen f) w).2 :=
  rel_andThen (fun _ _ _ h1 h2 => noLoadSince_trans h1 h2) hm hf

theorem noLoadSince_of_calls_eq {w w1 : World} (h : w1.calls = w.calls) : NoLoadSince w w1 :=
  ⟨[], by simp [h], rfl⟩

theorem liftFs_calls_events (op : FS → Except JsError Unit × FS) (w : World) :
    (liftFs op w).2.calls = w.calls ∧ (liftFs op w).2.events = w.events :=
  ⟨rfl, rfl⟩

theorem liftFs_eq_ok {op : FS → Except JsError Unit × FS} {w w1 : World}
    (h : liftFs op w = (.ok (), w1)) :
    op w.fs = (.ok (), w1.fs) ∧ w1.events = w.events ∧ w1.calls = w.calls := by
  unfold liftFs at h
  rcases hop : op w.fs with ⟨r, fs1⟩
  rw [hop] at h
  simp only [Prod.mk.injEq] at h
  obtain ⟨hr, hw⟩ := h
  subst hw
  exact ⟨by rw [hr], rfl, rfl⟩

/-! ## The descriptor validator -/

theorem getProp_ok_of_present {m : JsVal} {key : String} (h : present m key = true) :
    ∃ v, getProp m key = .ok v ∧ truthy v = true := by
  unfold present at h
  cases hg : getProp m key with
  | error e => simp [hg] at h
  | ok v => exact ⟨v, rfl, by simpa [hg] using h⟩

theorem getProp_ok_of_ok {m : JsVal} {k1 : String} {v : JsVal} (k2 : String)
    (h : getProp m k1 = .ok v) : ∃ u, getProp m k2 = .ok u := by
  cases m <;> simp [getProp] at h ⊢

theorem name_ne_empty_of_valid {addon : JsVal} {name : String}
    (hv : validPackage addon = .ok true) (hn : getProp addon "name" = .ok (.str name)) :
    name ≠ "" := by
  intro he
  subst he
  simp [validPackage, hn, jsNot, jsOr, truthy] at hv

/-- Claim C1: a metadata value whose `name` and `version` are present (truthy)
and in which at least one of `main` and `client` is present is accepted:
`validPackage` returns `true`. -/
theorem validPackage_of_required_present (m : JsVal)
    (hname : present m "name" = true) (hversion : present m "version" = true)
    (hcap : present m "main" = true ∨ present m "client" = true) :
    validPackage m = .ok true := by
  obtain ⟨n, hn, hnt⟩ := getProp_ok_of_present hname
  obtain ⟨v, hv, hvt⟩ := getProp_ok_of_present hversion
  obtain ⟨mn, hmn⟩ := getProp_ok_of_ok "main" hn
  obtain ⟨cl, hcl⟩ := getProp_ok_of_ok "client" hn
  have hcap2 : truthy mn = true ∨ truthy cl = true := by
    rcases hcap with h | h
    · left; simpa [present, hmn] using h
    · right; simpa [present, hcl] using h
  unfold validPackage
  rcases hcap2 with h | h
  · simp [hn, hv, hmn, jsNot, jsOr, jsAnd, hnt, hvt, h]
  · cases hm : truthy mn <;> simp [hn, hv, hmn, hcl, jsNot, jsOr, jsAnd, hnt, hvt, h, hm]

theorem validPackage_of_required_present_witness :
    validPackage (.obj [("name", .str "hello"), ("version", .str "1.0"), ("client", .obj [("main", .str "client.js")])]) = .ok true :=
  validPackage_of_required_present _ (by rfl) (by rfl) (Or.inr (by rfl))

/-- Claim C2, at the failing input `{name: "hello", version: "1.0"}`: with
`name` and `version` present and neither `main` nor `client`, the expression
reads `addon.client.main` on an undefined `client`, so `validPackage` raises a
`TypeError` where the claim says it returns `false`. -/
theorem validPackage_raises_without_capabilities :
    validPackage (.obj [("name", .str "hello"), ("version", .str "1.0")])
      = .error (.typeError "Cannot read property main of undefined") := by
  rfl

/-- A descriptor whose `name` is absent or falsy is rejected with `false`. -/
theorem validPackage_false_of_missing_name (m v : JsVal)
    (hname : getProp m "name" = .ok v) (hfalsy : truthy v = false) :
    validPackage m = .ok false := by
  simp [validPackage, hname, jsNot, jsOr, hfalsy]

/-- A descriptor with a name whose `version` is absent or falsy is rejected
with `false`. -/
theorem validPackage_false_of_missing_version (m v : JsVal)
    (hname : present m "name" = true)
    (hversion : getProp m "version" = .ok v) (hfalsy : truthy v = false) :
    validPackage m = .ok false := by
  obtain ⟨n, hn, hnt⟩ := getProp_ok_of_present hname
  simp [validPackage, hn, hversion, jsNot, jsOr, hnt, hfalsy]

/-- With `name` and `version` present, `main` falsy and `client` undefined or
null, `validPackage` raises a `TypeError`. -/
theorem validPackage_raises_of_no_capability (m main client : JsVal)
    (hname : present m "name" = true) (hversion : present m "version" = true)
    (hmain : getProp m "main" = .ok main) (hnomain : truthy main = false)
    (hclient : getProp m "client" = .ok client)
    (hnoclient : client = .undefined ∨ client = .null) :
    ∃ message, validPackage m = .error (.typeError message) := by
  obtain ⟨n, hn, hnt⟩ := getProp_ok_of_present hname
  obtain ⟨v, hv, hvt⟩ := getProp_ok_of_present hversion
  have hu : truthy .undefined = false := rfl
  have hnl : truthy .null = false := rfl
  rcases hnoclient with hc | hc <;> subst hc
  · refine ⟨"Cannot read property main of undefined", ?_⟩
    simp only [validPackage, hn, hv, hmain, hclient, jsNot, jsOr, jsAnd, hnt, hvt, hnomain,
      hu, Bool.not_true, Bool.not_false]
    rfl
  · refine ⟨"Cannot read property main of null", ?_⟩
    simp only [validPackage, hn, hv, hmain, hclient, jsNot, jsOr, jsAnd, hnt, hvt, hnomain,
      hnl, Bool.not_true, Bool.not_false]
    rfl

/-! ## Uninstall -/

/-- Claim C3: when `path.join(defaultsPath, name)` names an existing entry of
the template root, `uninstallAddon(name)` rejects with "Cannot uninstall a
default addon" and leaves the world as it was: same file tree, same event
log, no collaborator called. -/
theorem uninstallAddon_default_rejected (cfg : Config) (w : World) (name : String)
    (hdefault : existsSyncJoined w.fs (pathJoinStr cfg.defaultsPath name) = true) :
    uninstallAddon cfg (.str name) w
      = (.error (.error "Cannot uninstall a default addon"), w) := by
  simp [uninstallAddon, pathJoin, isDefaultAddon, hdefault]

theorem uninstallAddon_default_rejected_witness :
    "hello" ∈ (readdir sampleWorld.fs sampleConfig.defaultsPath).toOption.getD [] ∧
    uninstallAddon sampleConfig (.str "hello") sampleWorld
      = (.error (.error "Cannot uninstall a default addon"), sampleWorld) :=
  ⟨by decide, uninstallAddon_default_rejected sampleConfig sampleWorld "hello" (by rfl)⟩

/-- Claim C4, amended: when `name` is a single path component (not empty, no
`/`, neither `.` nor `..`), has no entry under the template root, and
`addonsPath/name` is a directory, `uninstallAddon(name)` resolves with `true`,
nothing is left at or below `addonsPath/name`, every other entry of the
registry root and everything below it (and every other path of the tree)
holds what it held before, and exactly one event `addons.uninstall` with
payload `{name: name}` is appended to the event log. -/
theorem uninstallAddon_removes_directory (cfg : Config) (w : World) (name : String)
    (hplain : isPlainName name = true)
    (hnotdefault : existsSync w.fs (cfg.defaultsPath ++ [name]) = false)
    (hdir : fsLookup w.fs (cfg.addonsPath ++ [name]) = some .dir) :
    (uninstallAddon cfg (.str name) w).1 = .ok true ∧
    (∀ rest, fsLookup (uninstallAddon cfg (.str name) w).2.fs
      (cfg.addonsPath ++ name :: rest) = none) ∧
    (∀ other rest, other ≠ name →
      fsLookup (uninstallAddon cfg (.str name) w).2.fs (cfg.addonsPath ++ other :: rest)
        = fsLookup w.fs (cfg.addonsPath ++ other :: rest)) ∧
    (∀ p, ¬ (cfg.addonsPath ++ [name]) <+: p →
      fsLookup (uninstallAddon cfg (.str name) w).2.fs p = fsLookup w.fs p) ∧
    (uninstallAddon cfg (.str name) w).2.events
      = w.events ++ [⟨"addons.uninstall", .obj [("name", .str name)]⟩] ∧
    (uninstallAddon cfg (.str name) w).2.calls = w.calls := by
  obtain ⟨hne, hslash, hdot, hdots⟩ := plain_of_isPlainName hplain
  have hrun : uninstallAddon cfg (.str name) w
      = (.ok true, { w with
          fs := removeTree w.fs (cfg.addonsPath ++ [name]),
          events := w.events ++ [⟨"addons.uninstall", .obj [("name", .str name)]⟩] }) := by
    simp [uninstallAddon, pathJoin, isDefaultAddon,
      pathJoinStr_of_plain _ _ hslash hne hdot hdots, existsSyncJoined_of_no_slash,
      hnotdefault, rmdirRecursive, hdir]
  rw [hrun]
  refine ⟨rfl, ?_, ?_, ?_, rfl, rfl⟩
  · intro rest
    apply fsLookup_removeTree_below
    exact ⟨rest, by simp⟩
  · intro other rest hother
    apply fsLookup_removeTree_elsewhere
    intro hp
    rw [List.prefix_append_right_inj, List.cons_prefix_cons] at hp
    exact hother hp.1.symm
  · intro p hp
    exact fsLookup_removeTree_elsewhere _ _ _ hp

theorem uninstallAddon_removes_directory_witness :
    (uninstallAddon sampleConfig (.str "extra") sampleWorld).1 = .ok true ∧
    fsLookup (uninstallAddon sampleConfig (.str "extra") sampleWorld).2.fs
      ["app", "addons", "extra"] = none ∧
    fsLookup (uninstallAddon sampleConfig (.str "extra") sampleWorld).2.fs
      ["app", "addons", "extra", "package.json"] = none ∧
    fsLookup (uninstallAddon sampleConfig (.str "extra") sampleWorld).2.fs
      ["app", "addons", "hello", "package.json"] = some (.file helloJson) ∧
    fsLookup (uninstallAddon sampleConfig (.str "extra") sampleWorld).2.fs
      ["app", "addons"] = some .dir ∧
    (uninstallAddon sampleConfig (.str "extra") sampleWorld).2.events
      = [⟨"addons.uninstall", .obj [("name", .str "extra")]⟩] ∧
    (uninstallAddon sampleConfig (.str "extra") sampleWorld).2.calls = [] := by
  have h := uninstallAddon_removes_directory sampleConfig sampleWorld "extra"
    (by decide) (by rfl) (by rfl)
  exact ⟨h.1, h.2.1 [], h.2.1 ["package.json"],
    (h.2.2.1 "hello" ["package.json"] (by decide)).trans (by rfl),
    (h.2.2.2.1 ["app", "addons"] (by decide)).trans (by rfl),
    h.2.2.2.2.1, h.2.2.2.2.2⟩

/-- Counterexample to claim C4: the name `../addons` has no entry under the
template root and `path.join(addonsPath, "../addons")` is the registry root
itself, an existing directory; the uninstall resolves with `true` and has
removed the registry root with every addon in it, the entry `hello`
included. -/
theorem uninstallAddon_removes_whole_registry :
    readdir splitWorld.fs splitConfig.defaultsPath = .ok ["hello"] ∧
    existsSyncJoined splitWorld.fs (pathJoinStr splitConfig.defaultsPath "../addons")
      = false ∧
    fsLookupJoined splitWorld.fs (pathJoinStr splitConfig.addonsPath "../addons")
      = some .dir ∧
    (uninstallAddon splitConfig (.str "../addons") splitWorld).1 = .ok true ∧
    fsLookup splitWorld.fs ["srv", "addons", "hello", "package.json"]
      = some (.file helloJson) ∧
    fsLookup (uninstallAddon splitConfig (.str "../addons") splitWorld).2.fs
      ["srv", "addons", "hello", "package.json"] = none ∧
    fsLookup (uninstallAddon splitConfig (.str "../addons") splitWorld).2.fs
      ["srv", "addons", "hello"] = none ∧
    fsLookup (uninstallAddon splitConfig (.str "../addons") splitWorld).2.fs
      ["srv", "addons"] = none := by
  refine ⟨by rfl, by rfl, by rfl, by rfl, by rfl, by rfl, by rfl, by rfl⟩

/-! ## The registry scan -/

theorem recorded_unique {cfg : Config} {env : Env} {fs : FS} {dir : String} {v v2 : JsVal}
    (h1 : Recorded cfg env fs dir v) (h2 : Recorded cfg env fs dir v2) : v = v2 := by
  obtain ⟨_, _, t1, a1, n1, hr1, hp1, _, hn1, hv1⟩ := h1
  obtain ⟨_, _, t2, a2, n2, hr2, hp2, _, hn2, hv2⟩ := h2
  rw [hr1] at hr2
  cases hr2
  rw [hp1] at hp2
  cases hp2
  rw [hn1] at hn2
  cases hn2
  rw [hv1, hv2]

theorem loadEntry_of_recorded {cfg : Config} {env : Env} {fs : FS} {dir : String} {v : JsVal}
    (acc : List (String × JsVal)) (h : Recorded cfg env fs dir v) :
    loadEntry cfg env fs acc dir = .ok (setKey acc dir v) := by
  obtain ⟨hh, hproto, text, addon, name, hr, hp, hv, hn, hval⟩ := h
  have hex := readFileSync_ok_exists hr
  simp [loadEntry, hh, hex, hr, hp, hv, hn, isDefaultAddon, pathJoin, hval, Except.bind,
    recordAddon, hproto]

theorem loadEntry_eq_ok {cfg : Config} {env : Env} {fs : FS} {dir : String}
    {acc acc1 : List (String × JsVal)} (h : loadEntry cfg env fs acc dir = .ok acc1) :
    (acc1 = acc ∧ ∀ v, ¬ Recorded cfg env fs dir v) ∨
    (∃ v, Recorded cfg env fs dir v ∧ acc1 = setKey acc dir v) := by
  cases hh : isHidden dir with
  | true =>
    left
    simp only [loadEntry, hh, if_true, Except.ok.injEq] at h
    refine ⟨h.symm, ?_⟩
    rintro v ⟨hv, _⟩
    simp [hh] at hv
  | false =>
    cases hex : existsSync fs (cfg.addonsPath ++ [dir, "package.json"]) with
    | false =>
      left
      simp [loadEntry, hh, hex] at h
      refine ⟨h.symm, ?_⟩
      rintro v ⟨_, _, text, addon, name, hr, _⟩
      have := readFileSync_ok_exists hr
      simp [this] at hex
    | true =>
      cases hr : readFileSync fs (cfg.addonsPath ++ [dir, "package.json"]) with
      | error e => simp [loadEntry, hh, hex, hr] at h
      | ok text =>
        cases hp : env.jsonParse text with
        | error e => simp [loadEntry, hh, hex, hr, hp] at h
        | ok addon =>
          cases hv : validPackage addon with
          | error e => simp [loadEntry, hh, hex, hr, hp, hv] at h
          | ok b =>
            cases b with
            | false =>
              left
              simp [loadEntry, hh, hex, hr, hp, hv] at h
              refine ⟨h.symm, ?_⟩
              rintro v ⟨_, _, t2, a2, n2, hr2, hp2, hv2, _⟩
              rw [hr] at hr2
              cases hr2
              rw [hp] at hp2
              cases hp2
              rw [hv] at hv2
              simp at hv2
            | true =>
              cases hn : getProp addon "name" with
              | error e => simp [loadEntry, hh, hex, hr, hp, hv, hn, Except.bind] at h
              | ok nv =>
                cases nv with
                | str name =>
                  by_cases hproto : dir = "__proto__"
                  · left
                    subst hproto
                    simp [loadEntry, hh, hex, hr, hp, hv, hn, Except.bind, isDefaultAddon,
                      pathJoin, recordAddon] at h
                    refine ⟨h.symm, ?_⟩
                    rintro v ⟨_, hnp, _⟩
                    exact hnp rfl
                  · right
                    simp [loadEntry, hh, hex, hr, hp, hv, hn, Except.bind, isDefaultAddon,
                      pathJoin, recordAddon, hproto] at h
                    exact ⟨_, ⟨hh, hproto, text, addon, name, hr, hp, hv, hn, rfl⟩, h.symm⟩
                | _ =>
                  simp [loadEntry, hh, hex, hr, hp, hv, hn, Except.bind, isDefaultAddon,
                    pathJoin] at h

theorem loadEntry_of_scannable {cfg : Config} {env : Env} {fs : FS} {dir : String}
    (acc : List (String × JsVal)) (h : Scannable cfg env fs dir) :
    ∃ acc1, loadEntry cfg env fs acc dir = .ok acc1 := by
  cases hh : isHidden dir with
  | true => exact ⟨acc, by simp [loadEntry, hh]⟩
  | false =>
    cases hex : existsSync fs (cfg.addonsPath ++ [dir, "package.json"]) with
    | false => exact ⟨acc, by simp [loadEntry, hh, hex]⟩
    | true =>
      obtain ⟨text, addon, hr, hp, hv⟩ := h hh hex
      rcases hv with hv | ⟨hv, name, hn⟩
      · exact ⟨acc, by simp [loadEntry, hh, hex, hr, hp, hv]⟩
      · exact ⟨_, by simp [loadEntry, hh, hex, hr, hp, hv, hn, Except.bind, isDefaultAddon,
          pathJoin]; rfl⟩

theorem loadEntries_eq_ok {cfg : Config} {env : Env} {fs : FS} :
    ∀ (dirs : List String) (acc addons : List (String × JsVal)),
      loadEntries cfg env fs acc dirs = .ok addons →
      (∀ dir v, dir ∈ dirs → Recorded cfg env fs dir v → lookupKey addons dir = some v) ∧
      (∀ dir, (dir ∉ dirs ∨ ∀ v, ¬ Recorded cfg env fs dir v) →
        lookupKey addons dir = lookupKey acc dir) := by
  intro dirs
  induction dirs with
  | nil =>
    intro acc addons h
    simp only [loadEntries, Except.ok.injEq] at h
    subst h
    exact ⟨fun _ _ hmem => absurd hmem (List.not_mem_nil _), fun _ _ => rfl⟩
  | cons d rest ih =>
    intro acc addons h
    unfold loadEntries at h
    cases h1 : loadEntry cfg env fs acc d with
    | error e => simp [h1] at h
    | ok acc1 =>
      simp only [h1] at h
      obtain ⟨ihrec, ihkeep⟩ := ih acc1 addons h
      have hstep : ∀ k, k ≠ d ∨ (∀ v, ¬ Recorded cfg env fs k v) →
          lookupKey acc1 k = lookupKey acc k := by
        intro k hk
        rcases loadEntry_eq_ok h1 with ⟨heq, _⟩ | ⟨v, hv, heq⟩
        · rw [heq]
        · rw [heq]
          rcases hk with hk | hk
          · exact lookupKey_setKey_of_ne _ _ _ _ hk
          · by_cases hkd : k = d
            · subst hkd
              exact absurd hv (hk v)
            · exact lookupKey_setKey_of_ne _ _ _ _ hkd
      constructor
      · intro dir v hmem hrec
        by_cases hin : dir ∈ rest
        · exact ihrec dir v hin hrec
        · have hd : dir = d := by
            rcases List.mem_cons.mp hmem with h2 | h2
            · exact h2
            · exact absurd h2 hin
          subst hd
          rw [ihkeep dir (Or.inl hin)]
          have h3 := loadEntry_of_recorded acc hrec
          rw [h3] at h1
          cases h1
          exact lookupKey_setKey_self _ _ _
      · intro dir hdir
        rcases hdir with hnot | hnone
        · have hnr : dir ∉ rest := fun h2 => hnot (List.mem_cons_of_mem _ h2)
          have hne : dir ≠ d := fun h2 => hnot (h2 ▸ List.mem_cons_self _ _)
          rw [ihkeep dir (Or.inl hnr), hstep dir (Or.inl hne)]
        · rw [ihkeep dir (Or.inr hnone), hstep dir (Or.inr hnone)]

theorem loadEntries_of_scannable {cfg : Config} {env : Env} {fs : FS} :
    ∀ (dirs : List String) (acc : List (String × JsVal)),
      (∀ dir ∈ dirs, Scannable cfg env fs dir) →
      ∃ addons, loadEntries cfg env fs acc dirs = .ok addons := by
  intro dirs
  induction dirs with
  | nil => intro acc _; exact ⟨acc, rfl⟩
  | cons d rest ih =>
    intro acc h
    obtain ⟨acc1, h1⟩ := loadEntry_of_scannable acc (h d (List.mem_cons_self _ _))
    obtain ⟨addons, h2⟩ := ih acc1 (fun dir hd => h dir (List.mem_cons_of_mem _ hd))
    exact ⟨addons, by simp [loadEntries, h1, h2]⟩

theorem loadAddonsInfos_world (cfg : Config) (env : Env) (w : World) :
    (loadAddonsInfos cfg env w).2 = w := by
  unfold loadAddonsInfos
  split <;> rfl

theorem loadAddonsInfos_of_fs_eq (cfg : Config) (env : Env) {w w1 : World}
    (h : w1.fs = w.fs) : (loadAddonsInfos cfg env w1).1 = (loadAddonsInfos cfg env w).1 := by
  unfold loadAddonsInfos
  rw [h]
  split <;> rfl

theorem loadAddonsInfos_eq_ok {cfg : Config} {env : Env} {w : World}
    {addons : List (String × JsVal)} (h : (loadAddonsInfos cfg env w).1 = .ok addons) :
    ∃ dirs, readdir w.fs cfg.addonsPath = .ok dirs ∧
      loadEntries cfg env w.fs [] dirs = .ok addons := by
  unfold loadAddonsInfos at h
  cases hl : readdir w.fs cfg.addonsPath with
  | error e => simp [hl] at h
  | ok dirs =>
    simp only [hl] at h
    exact ⟨dirs, rfl, h⟩

/-- Claim C8, amended: when the registry root can be listed and the
`package.json` of every non-hidden entry that has one reads and parses, with
`validPackage` returning a boolean on it and an accepted descriptor carrying
a string name, `loadAddonsInfos` resolves and leaves the world as it was;
the own keys of the object it returns are exactly the names of the
non-hidden directories, other than `__proto__`, whose descriptor is
accepted, each bound to that descriptor with its `default` flag: rejected
descriptors are omitted and every accepted one in a directory not named
`__proto__` is returned. -/
theorem loadAddonsInfos_resolves_when_scannable (cfg : Config) (env : Env) (w : World)
    (dirs : List String)
    (hlist : readdir w.fs cfg.addonsPath = .ok dirs)
    (hentries : ∀ dir ∈ dirs, Scannable cfg env w.fs dir) :
    ∃ addons, loadAddonsInfos cfg env w = (.ok addons, w) ∧
      ∀ dir v, lookupKey addons dir = some v ↔ (dir ∈ dirs ∧ Recorded cfg env w.fs dir v) := by
  obtain ⟨addons, hload⟩ := loadEntries_of_scannable dirs [] hentries
  refine ⟨addons, by simp [loadAddonsInfos, hlist, hload], ?_⟩
  obtain ⟨hrec, hkeep⟩ := loadEntries_eq_ok dirs [] addons hload
  intro dir v
  constructor
  · intro hlook
    by_cases hmem : dir ∈ dirs
    · by_cases hex : ∃ u, Recorded cfg env w.fs dir u
      · obtain ⟨u, hu⟩ := hex
        have := hrec dir u hmem hu
        rw [this] at hlook
        cases hlook
        exact ⟨hmem, hu⟩
      · have := hkeep dir (Or.inr (fun u hu => hex ⟨u, hu⟩))
        rw [this] at hlook
        simp [lookupKey] at hlook
    · have := hkeep dir (Or.inl hmem)
      rw [this] at hlook
      simp [lookupKey] at hlook
  · rintro ⟨hmem, hr⟩
    exact hrec dir v hmem hr

theorem loadAddonsInfos_resolves_when_scannable_witness :
    ∃ addons, loadAddonsInfos sampleConfig sampleEnv scanWorld = (.ok addons, scanWorld) ∧
      ∀ dir v, lookupKey addons dir = some v ↔
        (dir ∈ ["hello", "extra", "draft", ".git", "notes"] ∧
          Recorded sampleConfig sampleEnv scanWorld.fs dir v) :=
  loadAddonsInfos_resolves_when_scannable sampleConfig sampleEnv scanWorld
    ["hello", "extra", "draft", ".git", "notes"] (by rfl)
    (by
      intro dir hdir
      simp only [List.mem_cons, List.mem_singleton, List.not_mem_nil, or_false] at hdir
      rcases hdir with h | h | h | h | h <;> subst h <;> intro hhid hex
      · exact ⟨helloJson, helloVal, by rfl, by rfl, Or.inr ⟨by rfl, "hello", by rfl⟩⟩
      · exact ⟨extraJson, extraVal, by rfl, by rfl, Or.inr ⟨by rfl, "extra", by rfl⟩⟩
      · exact ⟨draftJson, draftVal, by rfl, by rfl, Or.inl (by rfl)⟩
      · exact absurd hhid (by decide)
      · exact absurd hex (by decide))

/-- Counterexample to claim C8: the registry root can be listed, one entry
holds a `package.json` that `JSON.parse` rejects, and the scan rejects as a
whole with that `SyntaxError` instead of omitting the entry. -/
theorem loadAddonsInfos_rejects_on_unparseable_entry :
    readdir brokenWorld.fs sampleConfig.addonsPath = .ok ["hello", "extra", "broken"] ∧
    readFileSync brokenWorld.fs (sampleConfig.addonsPath ++ ["broken", "package.json"])
      = .ok "not json" ∧
    sampleEnv.jsonParse "not json" = .error (.syntaxError "Unexpected token") ∧
    loadAddonsInfos sampleConfig sampleEnv brokenWorld
      = (.error (.syntaxError "Unexpected token"), brokenWorld) := by
  refine ⟨by rfl, by rfl, by rfl, by rfl⟩

/-! ## The stages of an install -/

theorem createTempDirectory_sameOutside (cfg : Config) (env : Env) (w : World) :
    SameOutside (stagingPath cfg env) w (createTempDirectory cfg env w).2 := by
  unfold createTempDirectory mkdir
  split_ifs with hex
  · exact sameOutside_refl _ _
  · cases hpar : fsLookup w.fs (stagingPath cfg env).dropLast with
    | none => exact sameOutside_refl _ _
    | some x =>
      cases x with
      | file c => exact sameOutside_refl _ _
      | dir =>
        refine ⟨rfl, fun p hp => ?_⟩
        apply fsLookup_append_of_forall_ne
        intro e he
        simp only [List.mem_singleton] at he
        subst he
        intro hpe
        exact hp (hpe ▸ List.prefix_refl _)

theorem createTempDirectory_eq_ok {cfg : Config} {env : Env} {w w1 : World} {t : Path}
    (h : createTempDirectory cfg env w = (.ok t, w1)) : t = stagingPath cfg env := by
  unfold createTempDirectory at h
  split at h <;> simp at h
  exact h.1.symm

theorem createTempDirectory_calls (cfg : Config) (env : Env) (w : World) :
    (createTempDirectory cfg env w).2.calls = w.calls := by
  unfold createTempDirectory
  split <;> rfl

theorem createTempDirectory_creates {cfg : Config} {env : Env} {w w0 : World} {t : Path}
    (h : createTempDirectory cfg env w = (.ok t, w0)) :
    fsLookup w0.fs (stagingPath cfg env) = some .dir := by
  unfold createTempDirectory at h
  split at h
  · simp at h
  · rename_i u fs1 hmk
    simp only [Prod.mk.injEq, Except.ok.injEq] at h
    rw [← h.2]
    exact fsLookup_after_mkdir hmk

theorem giftClone_sameOutside (env : Env) (git : String) (t : Path) (w : World) :
    SameOutside t w (giftClone env git t w).2 := by
  unfold giftClone
  cases hc : env.gitClone git with
  | error e => exact ⟨rfl, fun _ _ => rfl⟩
  | ok tree =>
    refine ⟨rfl, fun p hp => ?_⟩
    apply fsLookup_append_of_forall_ne
    intro e he
    simp only [List.mem_map] at he
    obtain ⟨x, _, hx⟩ := he
    subst hx
    intro hpe
    exact hp (hpe ▸ List.prefix_append _ _)

theorem giftClone_keeps (env : Env) (git : String) (t p : Path) (x : Entry) (w : World)
    (h : fsLookup w.fs p = some x) : fsLookup (giftClone env git t w).2.fs p = some x := by
  unfold giftClone
  cases hc : env.gitClone git with
  | error e => exact h
  | ok tree => exact fsLookup_append_of_some _ _ _ _ h

theorem giftClone_of_fetch_failure (env : Env) (git : String) (t : Path) (w : World)
    (e : JsError) (h : env.gitClone git = .error e) :
    giftClone env git t w = (.error e, { w with calls := w.calls ++ [.clone git t] }) := by
  simp [giftClone, h]

theorem checkAddon_world (cfg : Config) (env : Env) (t : Path) (w : World) :
    (checkAddon cfg env t w).2 = w := by
  unfold checkAddon
  simp only
  split_ifs
  · rfl
  · repeat' split
    all_goals rfl

theorem checkAddon_of_missing_metadata (cfg : Config) (env : Env) (t : Path) (w : World)
    (h : existsSync w.fs (t ++ ["package.json"]) = false) :
    checkAddon cfg env t w = (.error (.error "No 'package.json' in this repository"), w) := by
  simp [checkAddon, h]

theorem checkAddon_of_invalid_metadata (cfg : Config) (env : Env) (t : Path) (w : World)
    (text : String) (addon : JsVal)
    (hread : readFileSync w.fs (t ++ ["package.json"]) = .ok text)
    (hparse : env.jsonParse text = .ok addon)
    (hinvalid : validPackage addon = .ok false) :
    checkAddon cfg env t w = (.error (.error "Invalid 'package.json' file"), w) := by
  have hex := readFileSync_ok_exists hread
  simp [checkAddon, hex, hread, hparse, hinvalid]

theorem checkAddon_eq_ok {cfg : Config} {env : Env} {t : Path} {w w1 : World}
    {checked : JsVal × String × Path} (h : checkAddon cfg env t w = (.ok checked, w1)) :
    w1 = w ∧ ∃ text,
      readFileSync w.fs (t ++ ["package.json"]) = .ok text ∧
      env.jsonParse text = .ok checked.1 ∧
      validPackage checked.1 = .ok true ∧
      getProp checked.1 "name" = .ok (.str checked.2.1) ∧
      checked.2.2 = (pathJoinStr cfg.addonsPath checked.2.1).path := by
  have hw := checkAddon_world cfg env t w
  rw [h] at hw
  refine ⟨hw, ?_⟩
  cases hex : existsSync w.fs (t ++ ["package.json"]) with
  | false => simp [checkAddon, hex] at h
  | true =>
    cases hr : readFileSync w.fs (t ++ ["package.json"]) with
    | error e => simp [checkAddon, hex, hr] at h
    | ok text =>
      cases hp : env.jsonParse text with
      | error e => simp [checkAddon, hex, hr, hp] at h
      | ok addon =>
        cases hv : validPackage addon with
        | error e => simp [checkAddon, hex, hr, hp, hv] at h
        | ok b =>
          cases b with
          | false => simp [checkAddon, hex, hr, hp, hv] at h
          | true =>
            cases hn : getProp addon "name" with
            | error e => simp [checkAddon, hex, hr, hp, hv, hn] at h
            | ok nv =>
              cases nv with
              | str name =>
                simp [checkAddon, hex, hr, hp, hv, hn] at h
                obtain ⟨hc, _⟩ := h
                subst hc
                exact ⟨text, rfl, hp, hv, hn, rfl⟩
              | _ => simp [checkAddon, hex, hr, hp, hv, hn] at h

theorem useHook_sameOutside (env : Env) (addon : JsVal) (t : Path) (w : World) :
    SameOutside t w (useHook env addon w).2 :=
  ⟨rfl, fun _ _ => rfl⟩

theorem installPrepare_sameOutside (cfg : Config) (env : Env) (git : String) (w : World) :
    SameOutside (stagingPath cfg env) w (installPrepare cfg env git w).2 := by
  unfold installPrepare
  refine sameOutside_andThen (createTempDirectory_sameOutside cfg env w) ?_
  intro tempDir w1 hc
  rw [createTempDirectory_eq_ok hc]
  refine sameOutside_andThen (giftClone_sameOutside env git _ w1) ?_
  intro _ w2 _
  refine sameOutside_andThen ?_ ?_
  · rw [checkAddon_world]; exact sameOutside_refl _ _
  · intro checked w3 _
    refine sameOutside_andThen (useHook_sameOutside env _ _ w3) ?_
    intro _ w4 _
    exact sameOutside_refl _ _

theorem installPrepare_noLoad (cfg : Config) (env : Env) (git : String) (w : World) :
    NoLoadSince w (installPrepare cfg env git w).2 := by
  unfold installPrepare
  refine noLoadSince_andThen (noLoadSince_of_calls_eq (createTempDirectory_calls cfg env w)) ?_
  intro tempDir w1 _
  refine noLoadSince_andThen ?_ ?_
  · unfold giftClone
    cases env.gitClone git <;> exact ⟨[.clone git tempDir], rfl, rfl⟩
  · intro _ w2 _
    refine noLoadSince_andThen ?_ ?_
    · rw [checkAddon_world]; exact noLoadSince_refl _
    · intro checked w3 _
      refine noLoadSince_andThen ⟨[.hook checked.1], rfl, rfl⟩ ?_
      intro _ w4 _
      exact noLoadSince_refl _

theorem installPrepare_of_fetch_failure {cfg : Config} {env : Env} {git : String}
    {w w0 wb : World} {t : Path} {e : JsError}
    (hcreate : createTempDirectory cfg env w = (.ok t, w0))
    (hclone : giftClone env git t w0 = (.error e, wb)) :
    installPrepare cfg env git w = (.error e, wb) := by
  unfold installPrepare
  rw [andThen_of_ok hcreate]
  exact andThen_of_error hclone

theorem installPrepare_of_check_failure {cfg : Config} {env : Env} {git : String}
    {w w0 wb wc : World} {t : Path} {e : JsError}
    (hcreate : createTempDirectory cfg env w = (.ok t, w0))
    (hclone : giftClone env git t w0 = (.ok (), wb))
    (hcheck : checkAddon cfg env t wb = (.error e, wc)) :
    installPrepare cfg env git w = (.error e, wc) := by
  unfold installPrepare
  rw [andThen_of_ok hcreate, andThen_of_ok hclone]
  exact andThen_of_error hcheck

theorem installPrepare_of_hook_rejection {cfg : Config} {env : Env} {git : String}
    {w w0 wb wc : World} {t : Path} {checked : JsVal × String × Path} {e : JsError}
    (hcreate : createTempDirectory cfg env w = (.ok t, w0))
    (hclone : giftClone env git t w0 = (.ok (), wb))
    (hcheck : checkAddon cfg env t wb = (.ok checked, wc))
    (hhook : env.hook checked.1 = .error e) :
    installPrepare cfg env git w
      = (.error e, { wc with calls := wc.calls ++ [.hook checked.1] }) := by
  unfold installPrepare
  rw [andThen_of_ok hcreate, andThen_of_ok hclone, andThen_of_ok hcheck]
  apply andThen_of_error
  simp [useHook, hhook]

theorem installPrepare_eq_ok {cfg : Config} {env : Env} {git : String} {w w0 : World}
    {staged : Path × JsVal × String × Path}
    (h : installPrepare cfg env git w = (.ok staged, w0)) :
    staged.1 = stagingPath cfg env ∧
    ∃ text,
      readFileSync w0.fs (stagingPath cfg env ++ ["package.json"]) = .ok text ∧
      env.jsonParse text = .ok staged.2.1 ∧
      validPackage staged.2.1 = .ok true ∧
      getProp staged.2.1 "name" = .ok (.str staged.2.2.1) ∧
      staged.2.2.2 = (pathJoinStr cfg.addonsPath staged.2.2.1).path := by
  unfold installPrepare at h
  obtain ⟨t, wa, hc, h⟩ := andThen_eq_ok h
  have ht := createTempDirectory_eq_ok hc
  subst ht
  obtain ⟨_, wb, _, h⟩ := andThen_eq_ok h
  obtain ⟨checked, wc, hk, h⟩ := andThen_eq_ok h
  obtain ⟨_, wd, hh, h⟩ := andThen_eq_ok h
  simp only [Prod.mk.injEq, Except.ok.injEq] at h
  obtain ⟨hs, hw⟩ := h
  subst hs hw
  obtain ⟨hwc, text, hr, hp, hv, hn, hd⟩ := checkAddon_eq_ok hk
  subst hwc
  have hfs : wd.fs = wc.fs := by
    unfold useHook at hh
    simp only [Prod.mk.injEq] at hh
    rw [← hh.2]
  refine ⟨rfl, text, ?_, hp, hv, hn, hd⟩
  rw [hfs]
  exact hr

theorem installCommit_calls_events (t d : Path) (w : World) :
    (installCommit t d w).2.calls = w.calls ∧ (installCommit t d w).2.events = w.events := by
  unfold installCommit Act.andThen
  rcases h : liftFs (fun fs => copyDirRecursive fs t d) w with ⟨r, w1⟩
  have h1 := liftFs_calls_events (fun fs => copyDirRecursive fs t d) w
  rw [h] at h1
  cases r with
  | error e => exact h1
  | ok u =>
    have h2 := liftFs_calls_events (fun fs => rmdirRecursive fs t) w1
    exact ⟨h2.1.trans h1.1, h2.2.trans h1.2⟩

theorem installCommit_eq_ok {t d : Path} {w w1 : World}
    (h : installCommit t d w = (.ok (), w1)) :
    fsLookup (removeTree w.fs d) t = some .dir ∧
    w1.fs = removeTree
      ((removeTree w.fs d ++ [(d, .dir)]) ++ copyBelow (removeTree w.fs d) t d) t := by
  unfold installCommit at h
  obtain ⟨u, wa, hcopy, hrm⟩ := andThen_eq_ok h
  obtain ⟨hc, _, _⟩ := liftFs_eq_ok hcopy
  obtain ⟨hr, _, _⟩ := liftFs_eq_ok hrm
  obtain ⟨hsrc, hfs⟩ := copyDirRecursive_eq_ok hc
  refine ⟨hsrc, ?_⟩
  rw [rmdirRecursive_eq_ok hr, hfs]

theorem installCommit_ok_not_file {t d : Path} {w w1 : World}
    (h : installCommit t d w = (.ok (), w1)) (content : String) :
    fsLookup w.fs d ≠ some (.file content) := by
  unfold installCommit at h
  obtain ⟨u, wa, hcopy, _⟩ := andThen_eq_ok h
  obtain ⟨hc, _, _⟩ := liftFs_eq_ok hcopy
  exact copyDirRecursive_ok_not_file hc content

theorem installCommit_creates {t d : Path} {w w1 : World}
    (h : installCommit t d w = (.ok (), w1)) (hsep : ¬ t <+: d) :
    fsLookup w1.fs d = some .dir := by
  obtain ⟨_, hfs⟩ := installCommit_eq_ok h
  rw [hfs, fsLookup_removeTree_elsewhere _ _ _ hsep, List.append_assoc,
    fsLookup_append_of_none _ _ _ (fsLookup_removeTree_below _ _ _ (List.prefix_refl d))]
  simp [fsLookup]

theorem installCommit_copies {t d : Path} {w w1 : World} {r : Path} {x : Entry}
    (h : installCommit t d w = (.ok (), w1)) (hr : r ≠ [])
    (htd : ¬ t <+: d ++ r) (hdt : ¬ d <+: t ++ r)
    (hsrc : fsLookup w.fs (t ++ r) = some x) :
    fsLookup w1.fs (d ++ r) = some x := by
  obtain ⟨_, hfs⟩ := installCommit_eq_ok h
  have hne : d ≠ d ++ r := fun h2 => hr (List.append_right_eq_self.mp h2.symm)
  rw [hfs, fsLookup_removeTree_elsewhere _ _ _ htd, List.append_assoc,
    fsLookup_append_of_none _ _ _ (fsLookup_removeTree_below _ _ _ (List.prefix_append d r))]
  simp only [List.singleton_append, fsLookup, hne, if_false]
  show fsLookup (copyBelow (removeTree w.fs d) t d) (d ++ r) = some x
  rw [fsLookup_copyBelow _ _ _ _ hr, fsLookup_removeTree_elsewhere _ _ _ hdt]
  exact hsrc

theorem optimizeAddon_frame (cfg : Config) (env : Env) (addon : JsVal) (name : String)
    (w : World) :
    (optimizeAddon cfg env addon name w).2.fs = w.fs ∧
    (optimizeAddon cfg env addon name w).2.events = w.events ∧
    NoLoadSince w (optimizeAddon cfg env addon name w).2 := by
  unfold optimizeAddon
  cases hc : isClientside addon with
  | error e => exact ⟨rfl, rfl, noLoadSince_refl _⟩
  | ok b =>
    cases b with
    | false => exact ⟨rfl, rfl, noLoadSince_refl _⟩
    | true =>
      simp only
      cases hm : (getProp addon "client").bind (fun c => getProp c "main") with
      | error e => exact ⟨rfl, rfl, noLoadSince_refl _⟩
      | ok main =>
        simp only
        cases env.rjs w.fs (pathResolveStr cfg.addonsPath name) main <;>
          exact ⟨rfl, rfl, ⟨[.rjs (pathResolveStr cfg.addonsPath name) main], rfl, rfl⟩⟩

theorem installOptimize_frame (cfg : Config) (env : Env) (addon : JsVal) (name : String)
    (w : World) :
    (installOptimize cfg env addon name w).2.fs = w.fs ∧
    (installOptimize cfg env addon name w).2.events = w.events ∧
    NoLoadSince w (installOptimize cfg env addon name w).2 := by
  unfold installOptimize
  cases hc : isClientside addon with
  | error e => exact ⟨rfl, rfl, noLoadSince_refl _⟩
  | ok b =>
    cases b with
    | false => exact ⟨rfl, rfl, noLoadSince_refl _⟩
    | true =>
      simp only [Act.andThen]
      have h := optimizeAddon_frame cfg env addon name w
      rcases ho : optimizeAddon cfg env addon name w with ⟨r, w1⟩
      rw [ho] at h
      cases r <;> exact h

theorem installActivate_fs (cfg : Config) (env : Env) (addon : JsVal) (name : String)
    (w : World) : (installActivate cfg env addon name w).2.fs = w.fs := by
  unfold installActivate
  split <;> rfl

theorem installFinish_fs (cfg : Config) (env : Env) (addon : JsVal) (name : String)
    (reload : Bool) (w : World) :
    (installFinish cfg env addon name reload w).2.fs = w.fs := by
  unfold installFinish
  refine rel_andThen (R := fun a b : World => b.fs = a.fs)
    (fun _ _ _ h1 h2 => h2.trans h1) (installOptimize_frame cfg env addon name w).1 ?_
  intro _ w1 _
  refine rel_andThen (R := fun a b : World => b.fs = a.fs)
    (fun _ _ _ h1 h2 => h2.trans h1) rfl ?_
  intro _ w2 _
  refine rel_andThen (R := fun a b : World => b.fs = a.fs)
    (fun _ _ _ h1 h2 => h2.trans h1) (installActivate_fs cfg env addon name w2) ?_
  intro _ w3 _
  refine rel_andThen (R := fun a b : World => b.fs = a.fs)
    (fun _ _ _ h1 h2 => h2.trans h1) ?_ ?_
  · unfold installReload
    split
    · rfl
    · refine rel_andThen (R := fun a b : World => b.fs = a.fs)
        (fun _ _ _ h1 h2 => h2.trans h1) ?_ ?_
      · rw [loadAddonsInfos_world]
      · intro _ _ _
        rfl
  · intro _ w4 _
    rfl

theorem installFinish_eq_ok {cfg : Config} {env : Env} {addon v : JsVal} {name : String}
    {w w1 : World} (h : installFinish cfg env addon name true w = (.ok v, w1)) :
    v = addon ∧ w1.fs = w.fs ∧ ∃ addons, (loadAddonsInfos cfg env w).1 = .ok addons := by
  unfold installFinish at h
  obtain ⟨_, wa, ho, h1⟩ := andThen_eq_ok h
  obtain ⟨_, wb, hd, h2⟩ := andThen_eq_ok h1
  obtain ⟨_, wc, ha, h3⟩ := andThen_eq_ok h2
  obtain ⟨_, wd, hr, h4⟩ := andThen_eq_ok h3
  have hfa : wa.fs = w.fs := by
    have := (installOptimize_frame cfg env addon name w).1
    rw [ho] at this
    exact this
  have hfb : wb.fs = wa.fs := by
    have : (installDependencies cfg env name wa).2.fs = wa.fs := rfl
    rw [hd] at this
    exact this
  have hfc : wc.fs = wb.fs := by
    have := installActivate_fs cfg env addon name wb
    rw [ha] at this
    exact this
  have hr2 : ((loadAddonsInfos cfg env).andThen fun _ => fun w1 => (.ok (), w1)) wc
      = (.ok (), wd) := by
    have hr3 : installReload cfg env true wc = (.ok (), wd) := hr
    simpa [installReload] using hr3
  obtain ⟨addons, we, hl, hr5⟩ := andThen_eq_ok hr2
  have hwe : we = wc := by
    have := loadAddonsInfos_world cfg env wc
    rw [hl] at this
    exact this
  have hwd : we = wd := by
    have hr4 : ((Except.ok () : Except JsError Unit), we) = (Except.ok (), wd) := hr5
    exact (Prod.mk.injEq _ _ _ _ ▸ hr4).2
  have hwcd : wd.fs = wc.fs := by rw [← hwd, hwe]
  have h5 : installNotify addon wd = (.ok v, w1) := h4
  simp only [installNotify, Prod.mk.injEq, Except.ok.injEq] at h5
  obtain ⟨hv, hw⟩ := h5
  refine ⟨hv.symm, ?_, addons, ?_⟩
  · rw [← hw]
    exact hwcd.trans (hfc.trans (hfb.trans hfa))
  · rw [← loadAddonsInfos_of_fs_eq cfg env (hfc.trans (hfb.trans hfa)), hl]

/-! ## Install: failure before the commit -/

/-- Claim C5, amended: when the registry root exists and the staging directory
is not the registry root or a path inside it, an install whose stages before
the commit (create the staging directory, fetch, read and validate
`package.json`, authorise) end in an error rejects with that error, every
path at or below the registry root holds what it held before, and no event
is emitted. -/
theorem installAddon_fails_before_commit (cfg : Config) (env : Env) (git : String)
    (reload : Bool) (w w1 : World) (e : JsError)
    (hroot : Present w.fs cfg.addonsPath)
    (hout : ¬ cfg.addonsPath <+: stagingPath cfg env)
    (hfail : installPrepare cfg env git w = (.error e, w1)) :
    installAddon cfg env git reload w = (.error e, w1) ∧
    (∀ p, cfg.addonsPath <+: p → fsLookup w1.fs p = fsLookup w.fs p) ∧
    w1.events = w.events := by
  refine ⟨andThen_of_error hfail, ?_⟩
  by_cases hin : stagingPath cfg env <+: cfg.addonsPath
  · have hex : existsSync w.fs (stagingPath cfg env) = true :=
      hroot _ ((List.mem_inits _ _).mpr hin)
    have hcreate : createTempDirectory cfg env w
        = (.error (.system "EEXIST" (stagingPath cfg env)), w) := by
      simp [createTempDirectory, mkdir, hex]
    have hprep : installPrepare cfg env git w
        = (.error (.system "EEXIST" (stagingPath cfg env)), w) := by
      unfold installPrepare
      exact andThen_of_error hcreate
    rw [hprep] at hfail
    have hw : w = w1 := (Prod.mk.injEq _ _ _ _ ▸ hfail).2
    subst hw
    exact ⟨fun _ _ => rfl, rfl⟩
  · have hframe := installPrepare_sameOutside cfg env git w
    rw [hfail] at hframe
    refine ⟨?_, hframe.1⟩
    intro p hp
    apply hframe.2
    intro hs
    exact hin (below_of_common_extension hp hs hout)

theorem installAddon_fails_before_commit_witness :
    installAddon sampleConfig sampleEnv "git://host/bare.git" true sampleWorld
      = (.error (.error "No 'package.json' in this repository"),
         (installPrepare sampleConfig sampleEnv "git://host/bare.git" sampleWorld).2) ∧
    fsLookup (installPrepare sampleConfig sampleEnv "git://host/bare.git" sampleWorld).2.fs
      ["app", "addons"] = some .dir ∧
    fsLookup (installPrepare sampleConfig sampleEnv "git://host/bare.git" sampleWorld).2.fs
      ["app", "addons", "hello", "package.json"] = some (.file helloJson) ∧
    fsLookup (installPrepare sampleConfig sampleEnv "git://host/bare.git" sampleWorld).2.fs
      ["app", "addons", "README"] = none ∧
    (installPrepare sampleConfig sampleEnv "git://host/bare.git" sampleWorld).2.events
      = [] := by
  have h := installAddon_fails_before_commit sampleConfig sampleEnv "git://host/bare.git"
    true sampleWorld
    (installPrepare sampleConfig sampleEnv "git://host/bare.git" sampleWorld).2
    (.error "No 'package.json' in this repository") (by unfold Present; decide)
    (by decide) (by rfl)
  exact ⟨h.1, (h.2.1 ["app", "addons"] (by decide)).trans (by rfl),
    (h.2.1 ["app", "addons", "hello", "package.json"] (by decide)).trans (by rfl),
    (h.2.1 ["app", "addons", "README"] (by decide)).trans (by rfl), h.2.2⟩

/-- Counterexample to claim C5: with `tempPath` set to the registry root, the
staging directory is created as an entry of the registry root; the install
of a source without `package.json` rejects, and the staging directory, with
the fetched file in it, is left under the registry root, which now lists
three entries instead of two. -/
theorem staging_left_inside_registry_root :
    stagingPath nestedTempConfig sampleEnv = ["app", "addons", "t1380000000000"] ∧
    (installAddon nestedTempConfig sampleEnv "git://host/bare.git" true sampleWorld).1
      = .error (.error "No 'package.json' in this repository") ∧
    fsLookup sampleWorld.fs ["app", "addons", "t1380000000000"] = none ∧
    fsLookup
        (installAddon nestedTempConfig sampleEnv "git://host/bare.git" true sampleWorld).2.fs
        ["app", "addons", "t1380000000000"] = some .dir ∧
    readdir sampleWorld.fs nestedTempConfig.addonsPath = .ok ["hello", "extra"] ∧
    readdir
        (installAddon nestedTempConfig sampleEnv "git://host/bare.git" true sampleWorld).2.fs
        nestedTempConfig.addonsPath = .ok ["hello", "extra", "t1380000000000"] := by
  refine ⟨by rfl, by rfl, by rfl, by rfl, by rfl, by rfl⟩

/-- The registry root is assumed to exist in claim C5 for this reason: when it
is absent and the staging directory is a directory above it, the staging
directory can be created, and the fetch, which writes below the staging
directory, puts a directory at the registry root's path before the install
rejects. -/
theorem fetch_writes_at_absent_registry_root :
    stagingPath aboveTempConfig sampleEnv = ["tmp", "t1380000000000"] ∧
    ¬ aboveTempConfig.addonsPath <+: stagingPath aboveTempConfig sampleEnv ∧
    (installAddon aboveTempConfig sampleEnv "git://host/tree.git" true rootlessWorld).1
      = .error (.error "No 'package.json' in this repository") ∧
    fsLookup rootlessWorld.fs aboveTempConfig.addonsPath = none ∧
    fsLookup
        (installAddon aboveTempConfig sampleEnv "git://host/tree.git" true rootlessWorld).2.fs
        aboveTempConfig.addonsPath = some .dir := by
  refine ⟨by rfl, by decide, by rfl, by rfl, by rfl⟩

/-- Claim C6, amended: when the staging directory was created and the fetch,
the validation or the authorisation then fails, `installAddon` rejects with
that error and the staging directory is still there: nothing on these paths
removes it. -/
theorem installAddon_failure_leaves_staging (cfg : Config) (env : Env) (git : String)
    (reload : Bool) (w w1 : World) (e : JsError)
    (hcreated : (createTempDirectory cfg env w).1 = .ok (stagingPath cfg env))
    (hfail : installPrepare cfg env git w = (.error e, w1)) :
    installAddon cfg env git reload w = (.error e, w1) ∧
    fsLookup w1.fs (stagingPath cfg env) = some .dir := by
  refine ⟨andThen_of_error hfail, ?_⟩
  unfold installPrepare at hfail
  rcases andThen_eq_error hfail with h | ⟨t, w0, hc, hrest⟩
  · rw [h] at hcreated
    simp at hcreated
  · have ht := createTempDirectory_eq_ok hc
    subst ht
    have h0 := createTempDirectory_creates hc
    have hkeep : KeepsDir (stagingPath cfg env) w0
        (((giftClone env git (stagingPath cfg env)).andThen fun _ =>
          (checkAddon cfg env (stagingPath cfg env)).andThen fun checked =>
          (useHook env checked.1).andThen fun _ =>
          fun w => (.ok (stagingPath cfg env, checked), w)) w0).2 := by
      refine keepsDir_andThen ?_ ?_
      · exact giftClone_keeps env git _ _ _ w0
      · intro _ w2 _
        refine keepsDir_andThen ?_ ?_
        · rw [checkAddon_world]; exact id
        · intro checked w3 _
          refine keepsDir_andThen ?_ ?_
          · exact id
          · intro _ w4 _
            exact id
    rw [hrest] at hkeep
    exact hkeep h0

theorem installAddon_failure_leaves_staging_witness :
    installAddon sampleConfig sampleEnv "git://host/bare.git" true sampleWorld
      = (.error (.error "No 'package.json' in this repository"),
         (installPrepare sampleConfig sampleEnv "git://host/bare.git" sampleWorld).2) ∧
    fsLookup (installPrepare sampleConfig sampleEnv "git://host/bare.git" sampleWorld).2.fs
      (stagingPath sampleConfig sampleEnv) = some .dir :=
  installAddon_failure_leaves_staging sampleConfig sampleEnv "git://host/bare.git" true
    sampleWorld _ _ (by rfl) (by rfl)

/-- Counterexample to claim C6: the staging directory is created, the clone
fails, the install rejects, and the staging directory still exists in the
file tree the install leaves. -/
theorem staging_not_cleaned_after_failed_fetch :
    (createTempDirectory sampleConfig sampleEnv sampleWorld).1
      = .ok (stagingPath sampleConfig sampleEnv) ∧
    (installAddon sampleConfig sampleEnv "git://host/missing.git" true sampleWorld).1
      = .error (.external "clone failed") ∧
    existsSync (installAddon sampleConfig sampleEnv "git://host/missing.git" true sampleWorld).2.fs
      (stagingPath sampleConfig sampleEnv) = true := by
  refine ⟨by rfl, by rfl, by rfl⟩

theorem installAddon_success_removes_staging {cfg : Config} {env : Env} {git : String}
    {reload : Bool} {w w1 : World} {v : JsVal}
    (h : installAddon cfg env git reload w = (.ok v, w1)) :
    fsLookup w1.fs (stagingPath cfg env) = none := by
  unfold installAddon at h
  obtain ⟨staged, w0, hprep, h1⟩ := andThen_eq_ok h
  obtain ⟨_, wc, hcommit, hfin⟩ := andThen_eq_ok h1
  have ht : staged.1 = stagingPath cfg env := by
    unfold installPrepare at hprep
    obtain ⟨t, wa, hc, h2⟩ := andThen_eq_ok hprep
    obtain ⟨_, wb, _, h3⟩ := andThen_eq_ok h2
    obtain ⟨checked, wd, _, h4⟩ := andThen_eq_ok h3
    obtain ⟨_, we, _, h5⟩ := andThen_eq_ok h4
    have h6 : ((Except.ok (t, checked) : Except JsError (Path × JsVal × String × Path)), we)
        = (Except.ok staged, w0) := h5
    simp only [Prod.mk.injEq, Except.ok.injEq] at h6
    rw [← h6.1]
    exact createTempDirectory_eq_ok hc
  have hfs := installFinish_fs cfg env staged.2.1 staged.2.2.1 reload wc
  have hfin2 : installFinish cfg env staged.2.1 staged.2.2.1 reload wc = (.ok v, w1) := hfin
  rw [hfin2] at hfs
  obtain ⟨_, hc⟩ := installCommit_eq_ok hcommit
  simp only at hfs
  rw [hfs, hc, ht]
  exact fsLookup_removeTree_below _ _ _ (List.prefix_refl _)

/-! ## Install: failure of dependency provisioning -/

/-- Claim C7, amended: for a server-capable addon whose install reached and
passed the commit (and the optimisation step), a failure of
`installDependencies` rejects the install with that error; `initNodeAddon` is
not called (no `app.load` among the calls made), no event is emitted, the
file tree is the one the commit left and `addonDir` is still a directory. -/
theorem installAddon_provision_failure (cfg : Config) (env : Env) (git : String)
    (reload : Bool) (w w0 w1 w2 : World) (staged : Path × JsVal × String × Path)
    (e : JsError)
    (hprepare : installPrepare cfg env git w = (.ok staged, w0))
    (hcommit : installCommit staged.1 staged.2.2.2 w0 = (.ok (), w1))
    (hsep : ¬ staged.1 <+: staged.2.2.2)
    (hmain : present staged.2.1 "main" = true)
    (hoptimize : installOptimize cfg env staged.2.1 staged.2.2.1 w1 = (.ok (), w2))
    (hnpm : env.npmInstall w2.fs (pathJoinStr cfg.addonsPath staged.2.2.1).path = .error e) :
    (installAddon cfg env git reload w).1 = .error e ∧
    NoLoadSince w (installAddon cfg env git reload w).2 ∧
    (installAddon cfg env git reload w).2.fs = w1.fs ∧
    fsLookup (installAddon cfg env git reload w).2.fs staged.2.2.2 = some .dir ∧
    (installAddon cfg env git reload w).2.events = w.events := by
  have _ := hmain
  have hrun : installAddon cfg env git reload w
      = (.error e, { w2 with calls := w2.calls
          ++ [.npmInstall (pathJoinStr cfg.addonsPath staged.2.2.1).path] }) := by
    unfold installAddon
    rw [andThen_of_ok hprepare, andThen_of_ok hcommit]
    unfold installFinish
    rw [andThen_of_ok hoptimize]
    apply andThen_of_error
    simp [installDependencies, hnpm]
  have hp := installPrepare_noLoad cfg env git w
  have hpe := (installPrepare_sameOutside cfg env git w).1
  have hc := installCommit_calls_events staged.1 staged.2.2.2 w0
  have ho := installOptimize_frame cfg env staged.2.1 staged.2.2.1 w1
  rw [hprepare] at hp hpe
  rw [hcommit] at hc
  rw [hoptimize] at ho
  simp only at hp hpe hc ho
  rw [hrun]
  refine ⟨rfl, ?_, ho.1, ?_, ?_⟩
  · refine noLoadSince_trans hp (noLoadSince_trans (noLoadSince_of_calls_eq hc.1)
      (noLoadSince_trans ho.2.2 ?_))
    exact ⟨[.npmInstall (pathJoinStr cfg.addonsPath staged.2.2.1).path], rfl, rfl⟩
  · show fsLookup w2.fs staged.2.2.2 = some .dir
    rw [ho.1]
    exact installCommit_creates hcommit hsep
  · show w2.events = w.events
    rw [ho.2.1, hc.2, hpe]

theorem installAddon_provision_failure_witness :
    (installAddon sampleConfig sampleEnv "git://host/needy.git" true sampleWorld).1
      = .error (.external "npm install failed") ∧
    NoLoadSince sampleWorld
      (installAddon sampleConfig sampleEnv "git://host/needy.git" true sampleWorld).2 ∧
    (installAddon sampleConfig sampleEnv "git://host/needy.git" true sampleWorld).2.fs
      = (installCommit ["tmp", "t1380000000000"] ["app", "addons", "needy"]
          (installPrepare sampleConfig sampleEnv "git://host/needy.git" sampleWorld).2).2.fs ∧
    fsLookup (installAddon sampleConfig sampleEnv "git://host/needy.git" true sampleWorld).2.fs
      ["app", "addons", "needy"] = some .dir ∧
    (installAddon sampleConfig sampleEnv "git://host/needy.git" true sampleWorld).2.events
      = sampleWorld.events :=
  installAddon_provision_failure sampleConfig sampleEnv "git://host/needy.git" true
    sampleWorld
    (installPrepare sampleConfig sampleEnv "git://host/needy.git" sampleWorld).2
    (installCommit ["tmp", "t1380000000000"] ["app", "addons", "needy"]
      (installPrepare sampleConfig sampleEnv "git://host/needy.git" sampleWorld).2).2
    (installCommit ["tmp", "t1380000000000"] ["app", "addons", "needy"]
      (installPrepare sampleConfig sampleEnv "git://host/needy.git" sampleWorld).2).2
    (["tmp", "t1380000000000"], needyVal, "needy", ["app", "addons", "needy"])
    (.external "npm install failed")
    (by rfl) (by rfl) (by decide) (by rfl) (by rfl) (by rfl)

/-- Counterexample to claim C7: the install of a server-capable addon passes
the commit, `npm install` fails, the install rejects, and the calls made are
the clone, the hook and `npm install` only: `app.load` was never called. -/
theorem activate_skipped_after_failed_provisioning :
    (installPrepare sampleConfig sampleEnv "git://host/needy.git" sampleWorld).1
      = .ok (["tmp", "t1380000000000"], needyVal, "needy", ["app", "addons", "needy"]) ∧
    (installCommit ["tmp", "t1380000000000"] ["app", "addons", "needy"]
      (installPrepare sampleConfig sampleEnv "git://host/needy.git" sampleWorld).2).1
      = .ok () ∧
    present needyVal "main" = true ∧
    (installAddon sampleConfig sampleEnv "git://host/needy.git" true sampleWorld).1
      = .error (.external "npm install failed") ∧
    (installAddon sampleConfig sampleEnv "git://host/needy.git" true sampleWorld).2.calls
      = [.clone "git://host/needy.git" ["tmp", "t1380000000000"], .hook needyVal,
         .npmInstall ["app", "addons", "needy"]] ∧
    (installAddon sampleConfig sampleEnv "git://host/needy.git" true
      sampleWorld).2.calls.any Call.isLoad = false := by
  refine ⟨by rfl, by rfl, by rfl, by rfl, by rfl, by rfl⟩

/-! ## Install followed by a scan -/

/-- Claim C10, amended: after an install with `reload = true` resolved with
descriptor `addon` whose name contains no `/`, does not start with a dot and
is not `__proto__`, `loadAddonsInfos` resolves and the object it returns has
the name among its own keys, bound to the descriptor parsed from
`addonsPath/name/package.json` (which is `addon`) with its `default` flag. -/
theorem installAddon_then_listed (cfg : Config) (env : Env) (git : String) (w w1 : World)
    (addon : JsVal) (name : String)
    (hinstall : installAddon cfg env git true w = (.ok addon, w1))
    (hname : getProp addon "name" = .ok (.str name))
    (hslash : '/' ∉ name.data)
    (hvisible : isHidden name = false)
    (hproto : name ≠ "__proto__") :
    ∃ addons text,
      loadAddonsInfos cfg env w1 = (.ok addons, w1) ∧
      readFileSync w1.fs (cfg.addonsPath ++ [name, "package.json"]) = .ok text ∧
      env.jsonParse text = .ok addon ∧
      lookupKey addons name
        = some (setProp addon "default"
            (.bool (existsSyncJoined w1.fs (pathJoinStr cfg.defaultsPath name)))) := by
  unfold installAddon at hinstall
  obtain ⟨staged, w0, hprep, h1⟩ := andThen_eq_ok hinstall
  obtain ⟨_, wc, hcommit, hfin⟩ := andThen_eq_ok h1
  obtain ⟨hv, hfs, addons, hload⟩ := installFinish_eq_ok hfin
  obtain ⟨ht, text, hr, hp, hvalid, hn, hd⟩ := installPrepare_eq_ok hprep
  rw [← hv] at hp hvalid hn
  have hnm : staged.2.2.1 = name := by
    rw [hname] at hn
    cases hn
    rfl
  rw [hnm] at hd
  have hne := name_ne_empty_of_valid hvalid hname
  have hdots := ne_dot_of_not_hidden hvisible
  rw [pathJoinStr_of_plain _ _ hslash hne hdots.1 hdots.2] at hd
  have hd2 : staged.2.2.2 = cfg.addonsPath ++ [name] := hd
  rw [hd2, ht] at hcommit
  obtain ⟨hsrc, hwc⟩ := installCommit_eq_ok hcommit
  have hload1 : (loadAddonsInfos cfg env w1).1 = .ok addons := by
    rw [loadAddonsInfos_of_fs_eq cfg env hfs, hload]
  obtain ⟨dirs, hlist, hentries⟩ := loadAddonsInfos_eq_ok hload1
  -- the copy succeeded, so the staging directory is not at or below `addonDir`
  have hdt : ¬ (cfg.addonsPath ++ [name]) <+: stagingPath cfg env := by
    intro h
    rw [fsLookup_removeTree_below _ _ _ h] at hsrc
    cases hsrc
  -- the registry root was listed after the staging directory was removed
  have hta : ¬ stagingPath cfg env <+: cfg.addonsPath := by
    intro h
    have hroot := readdir_eq_ok hlist
    rw [hfs, hwc, fsLookup_removeTree_below _ _ _ h] at hroot
    cases hroot
  have htd : ¬ stagingPath cfg env <+: cfg.addonsPath ++ [name] := by
    intro h
    rcases List.prefix_concat_iff.mp h with h2 | h2
    · exact hdt (h2 ▸ List.prefix_refl _)
    · exact hta h2
  have htf : ¬ stagingPath cfg env <+: (cfg.addonsPath ++ [name]) ++ ["package.json"] := by
    intro h
    rcases List.prefix_concat_iff.mp h with h2 | h2
    · exact hdt (h2 ▸ List.prefix_append _ _)
    · exact htd h2
  have hdf : ¬ (cfg.addonsPath ++ [name]) <+: stagingPath cfg env ++ ["package.json"] := by
    intro h
    rcases List.prefix_concat_iff.mp h with h2 | h2
    · apply installCommit_ok_not_file hcommit text
      rw [h2]
      exact readFileSync_eq_ok hr
    · exact hdt h2
  have hdir : fsLookup w1.fs (cfg.addonsPath ++ [name]) = some .dir := by
    rw [hfs]
    exact installCommit_creates hcommit htd
  have hfile : fsLookup w1.fs (cfg.addonsPath ++ [name, "package.json"])
      = some (.file text) := by
    rw [hfs]
    have := installCommit_copies (r := ["package.json"]) hcommit (by simp) htf hdf
      (readFileSync_eq_ok hr)
    simpa using this
  have hmem : name ∈ dirs := mem_readdir hlist hdir
  have hrec : Recorded cfg env w1.fs name
      (setProp addon "default"
        (.bool (existsSyncJoined w1.fs (pathJoinStr cfg.defaultsPath name)))) :=
    ⟨hvisible, hproto, text, addon, name, readFileSync_of_lookup hfile, hp, hvalid, hname,
      rfl⟩
  refine ⟨addons, text, ?_, readFileSync_of_lookup hfile, hp,
    (loadEntries_eq_ok dirs [] addons hentries).1 name _ hmem hrec⟩
  have h2 := loadAddonsInfos_world cfg env w1
  rw [Prod.ext_iff]
  exact ⟨hload1, h2⟩

theorem installAddon_then_listed_witness :
    ∃ addons text,
      loadAddonsInfos sampleConfig sampleEnv
          (installAddon sampleConfig sampleEnv "git://host/hello.git" true sampleWorld).2
        = (.ok addons,
            (installAddon sampleConfig sampleEnv "git://host/hello.git" true sampleWorld).2) ∧
      readFileSync
          (installAddon sampleConfig sampleEnv "git://host/hello.git" true sampleWorld).2.fs
          (sampleConfig.addonsPath ++ ["hello", "package.json"]) = .ok text ∧
      sampleEnv.jsonParse text = .ok helloVal ∧
      lookupKey addons "hello"
        = some (setProp helloVal "default"
            (.bool (existsSyncJoined
              (installAddon sampleConfig sampleEnv "git://host/hello.git" true
                sampleWorld).2.fs
              (pathJoinStr sampleConfig.defaultsPath "hello")))) :=
  installAddon_then_listed sampleConfig sampleEnv "git://host/hello.git" sampleWorld
    (installAddon sampleConfig sampleEnv "git://host/hello.git" true sampleWorld).2
    helloVal "hello" (by rfl) (by rfl) (by decide) (by rfl) (by decide)

/-- Counterexample to claim C10: the install of an addon named `.secret`
resolves with `reload = true` and its `package.json` is in the registry, but
the scan skips names that start with a dot: the map has no `.secret` key. -/
theorem hidden_addon_not_listed_after_install :
    (installAddon sampleConfig sampleEnv "git://host/secret.git" true sampleWorld).1
      = .ok hiddenVal ∧
    getProp hiddenVal "name" = .ok (.str ".secret") ∧
    readFileSync
        (installAddon sampleConfig sampleEnv "git://host/secret.git" true sampleWorld).2.fs
        (sampleConfig.addonsPath ++ [".secret", "package.json"]) = .ok hiddenJson ∧
    (loadAddonsInfos sampleConfig sampleEnv
        (installAddon sampleConfig sampleEnv "git://host/secret.git" true sampleWorld).2).1
      = .ok [("hello", setProp helloVal "default" (.bool true)),
             ("extra", setProp extraVal "default" (.bool false))] ∧
    lookupKey [("hello", setProp helloVal "default" (.bool true)),
               ("extra", setProp extraVal "default" (.bool false))] ".secret" = none := by
  refine ⟨by rfl, by rfl, by rfl, by rfl, by rfl⟩

/-- An addon named `__proto__` installs with `reload = true`, its directory is
in the registry, and the scan returns an object without an own key of that
name. -/
theorem proto_addon_not_listed_after_install :
    (installAddon sampleConfig sampleEnv "git://host/proto.git" true sampleWorld).1
      = .ok protoVal ∧
    readFileSync
        (installAddon sampleConfig sampleEnv "git://host/proto.git" true sampleWorld).2.fs
        (sampleConfig.addonsPath ++ ["__proto__", "package.json"]) = .ok protoJson ∧
    (loadAddonsInfos sampleConfig sampleEnv
        (installAddon sampleConfig sampleEnv "git://host/proto.git" true sampleWorld).2).1
      = .ok [("hello", setProp helloVal "default" (.bool true)),
             ("extra", setProp extraVal "default" (.bool false))] := by
  refine ⟨by rfl, by rfl, by rfl⟩

/-- An addon named `hello/sub` installs with `reload = true` into a directory
below the entry `hello`, and the scan, which is keyed by the entries of the
registry root, has no key `hello/sub`. -/
theorem nested_addon_not_listed_after_install :
    (installAddon sampleConfig sampleEnv "git://host/nested.git" true sampleWorld).1
      = .ok nestedVal ∧
    readFileSync
        (installAddon sampleConfig sampleEnv "git://host/nested.git" true sampleWorld).2.fs
        (sampleConfig.addonsPath ++ ["hello", "sub", "package.json"]) = .ok nestedJson ∧
    (loadAddonsInfos sampleConfig sampleEnv
        (installAddon sampleConfig sampleEnv "git://host/nested.git" true sampleWorld).2).1
      = .ok [("hello", setProp helloVal "default" (.bool true)),
             ("extra", setProp extraVal "default" (.bool false))] ∧
    lookupKey [("hello", setProp helloVal "default" (.bool true)),
               ("extra", setProp extraVal "default" (.bool false))] "hello/sub" = none := by
  refine ⟨by rfl, by rfl, by rfl, by rfl⟩

/-! ## The defaults synchroniser -/

theorem settleDefaults_length (cfg : Config) (env : Env) :
    ∀ (dirs : List String) (w : World),
      (settleDefaults cfg env dirs w).1.length = dirs.length := by
  intro dirs
  induction dirs with
  | nil => intro w; rfl
  | cons d rest ih =>
    intro w
    simp only [settleDefaults, List.length_cons]
    rw [ih]

theorem settleDefaults_cons (cfg : Config) (env : Env) (d : String) (rest : List String)
    (w : World) :
    settleDefaults cfg env (d :: rest) w
      = ((syncDefault cfg env d w).1 :: (settleDefaults cfg env rest (syncDefault cfg env d w).2).1,
         (settleDefaults cfg env rest (syncDefault cfg env d w).2).2) := by
  simp [settleDefaults]

theorem settleDefaults_append (cfg : Config) (env : Env) :
    ∀ (pre post : List String) (w : World),
      settleDefaults cfg env (pre ++ post) w
        = ((settleDefaults cfg env pre w).1
              ++ (settleDefaults cfg env post (settleDefaults cfg env pre w).2).1,
           (settleDefaults cfg env post (settleDefaults cfg env pre w).2).2) := by
  intro pre
  induction pre with
  | nil => intro post w; simp [settleDefaults]
  | cons d rest ih =>
    intro post w
    rw [List.cons_append, settleDefaults_cons, ih, settleDefaults_cons]
    simp

theorem syncDefault_of_not_directory (cfg : Config) (env : Env) (dir : String) (w : World)
    (h : lstatIsDirectory w.fs (pathJoinStr cfg.defaultsPath dir) = .ok false) :
    syncDefault cfg env dir w
      = (.error (.error ("There is a file inside defaults addons directory: "
          ++ joinedText (pathJoinStr cfg.defaultsPath dir))), w) := by
  simp [syncDefault, h]

/-- Claim C9, amended: when the template root can be listed, `installDefaults`
resolves with one outcome per listed entry, in order.  An entry that is not
a directory when its turn comes yields the failed outcome "There is a file
inside defaults addons directory" and changes nothing (no copy, no
provisioning): the outcomes of the entries after it and the final world are
those of a run that continues from the world the entries before it left. -/
theorem installDefaults_settles_every_entry (cfg : Config) (env : Env) (w : World)
    (dirs : List String)
    (hlist : readdir w.fs cfg.defaultsPath = .ok dirs) :
    (installDefaults cfg env w).1 = .ok (settleDefaults cfg env dirs w).1 ∧
    (settleDefaults cfg env dirs w).1.length = dirs.length ∧
    (installDefaults cfg env w).2 = (settleDefaults cfg env dirs w).2 ∧
    ∀ pre dir post, dirs = pre ++ dir :: post →
      lstatIsDirectory (settleDefaults cfg env pre w).2.fs
        (pathJoinStr cfg.defaultsPath dir) = .ok false →
      (settleDefaults cfg env dirs w).1
        = (settleDefaults cfg env pre w).1
          ++ .error (.error ("There is a file inside defaults addons directory: "
              ++ joinedText (pathJoinStr cfg.defaultsPath dir)))
          :: (settleDefaults cfg env post (settleDefaults cfg env pre w).2).1 ∧
      (settleDefaults cfg env dirs w).2
        = (settleDefaults cfg env post (settleDefaults cfg env pre w).2).2 := by
  refine ⟨by simp [installDefaults, hlist], settleDefaults_length cfg env dirs w,
    by simp [installDefaults, hlist], ?_⟩
  intro pre dir post hsplit hfile
  rw [hsplit, settleDefaults_append, settleDefaults_cons,
    syncDefault_of_not_directory cfg env dir _ hfile]
  exact ⟨rfl, rfl⟩

theorem installDefaults_settles_every_entry_witness :
    (installDefaults sampleConfig sampleEnv mixedDefaultsWorld).1
      = .ok [.ok (), .error (.error
          "There is a file inside defaults addons directory: /app/defaults/README")] ∧
    (settleDefaults sampleConfig sampleEnv ["hello", "README"] mixedDefaultsWorld).1.length
      = 2 ∧
    (installDefaults sampleConfig sampleEnv mixedDefaultsWorld).2
      = (syncDefault sampleConfig sampleEnv "hello" mixedDefaultsWorld).2 := by
  have h := installDefaults_settles_every_entry sampleConfig sampleEnv mixedDefaultsWorld
    ["hello", "README"] (by rfl)
  have hfile := h.2.2.2 ["hello"] "README" [] rfl (by rfl)
  exact ⟨h.1.trans (congrArg Except.ok (hfile.1.trans (by rfl))), h.2.1,
    h.2.2.1.trans (hfile.2.trans (by rfl))⟩

/-- Counterexample to claim C9: with no template root in the file tree,
`fs.readdir` fails and `installDefaults` rejects as a whole. -/
theorem installDefaults_rejects_without_template_root :
    installDefaults sampleConfig sampleEnv bareWorld
      = (.error (.system "ENOENT" ["app", "defaults"]), bareWorld) := by
  rfl

/-- Scenario of one directory and one plain file under the template root: two
outcomes, a success and a failure; the directory is copied and provisioned,
the file is not. -/
theorem installDefaults_directory_and_file :
    (installDefaults sampleConfig sampleEnv mixedDefaultsWorld).1
      = .ok [.ok (), .error (.error
          "There is a file inside defaults addons directory: /app/defaults/README")] ∧
    fsLookup (installDefaults sampleConfig sampleEnv mixedDefaultsWorld).2.fs
      ["app", "addons", "hello", "package.json"] = some (.file helloJson) ∧
    fsLookup (installDefaults sampleConfig sampleEnv mixedDefaultsWorld).2.fs
      ["app", "addons", "README"] = none ∧
    (installDefaults sampleConfig sampleEnv mixedDefaultsWorld).2.calls
      = [.npmInstall ["app", "addons", "hello"]] := by
  refine ⟨by rfl, by rfl, by rfl, by rfl⟩

end Addons
